import Mathlib

/-!
# dc: lazily initialised providers with mocking and global reset

A shallow embedding of `core.go` (package `dc`).

Go state is made explicit.  A `World` holds the allocated `provider` objects
(`heap`, a pointer is an index into it), the package-level slice `providers`
(the registry, a list of pointers) and `env`, the variables captured by the
factory closures.  A factory `func() T` is a Go closure that may touch its
captured variables and call back into the package, so it is represented by a
command tree `Prog`; `exec` runs such a tree.  A Go panic is an `Except.error`
carrying the panic message, and the world at the moment of the panic is kept,
because a caller may `recover()` and go on using the providers.

`provider.Use` calls the factory, which may call `Use` again, so `Use` takes a
fuel argument bounding the depth of nested factory invocations; `none` means
the fuel ran out.
-/

namespace dc

/-- The body of a factory closure `func() T`: what it does before it returns.
`T` is the result type, `E` the type of the variables the closure captures.
A body has no `recover()`: a panic raised while it runs ends it and reaches
the caller of `Use`. -/
inductive Prog (T : Type) (E : Type) where
  /-- The statement `return v`. -/
  | ret (v : T) : Prog T E
  /-- The statement `panic(msg)`. -/
  | panic (msg : String) : Prog T E
  /-- Read the captured variables. -/
  | read (k : E → Prog T E) : Prog T E
  /-- Assign to the captured variables (for instance `counter++`). -/
  | modify (f : E → E) (k : Prog T E) : Prog T E
  /-- Call `q.Use()` on the provider at pointer `a` and go on with its result. -/
  | use (a : Nat) (k : T → Prog T E) : Prog T E
  /-- Call `q.Mock(v)` on the provider at pointer `a`. -/
  | mock (a : Nat) (v : T) (k : Prog T E) : Prog T E
  /-- Call `q.reset()` on the provider at pointer `a`. -/
  | reset (a : Nat) (k : Prog T E) : Prog T E
  /-- Call the package function `Reset()`. -/
  | resetAll (k : Prog T E) : Prog T E
  /-- Call `Provider(f)` and go on with the pointer it returns. -/
  | construct (f : Prog T E) (k : Nat → Prog T E) : Prog T E

/-- The struct `provider[T]` of core.go, field for field. -/
structure provider (T : Type) (E : Type) where
  createDependency : Prog T E
  instance_ : T
  mock : T
  isPending : Bool
  hasInstance : Bool
  hasMock : Bool

/-- The program state: the allocated providers, the registry `providers`,
and the captured variables of the factories.  `calls` is a ghost log, one
entry (the provider's pointer) per invocation of a `createDependency`; no
operation reads it. -/
structure World (T : Type) (E : Type) where
  heap : List (provider T E)
  providers : List Nat
  env : E
  calls : List Nat

/-- The panic message of `Use` on a pending provider (CircularDependency). -/
def circularDependency : String :=
  "detected circular dependency, please check your code"

/-- The panic message of `Mock` on an instantiated provider
(AlreadyInitialized). -/
def alreadyInitialized : String :=
  "instance already set, please reset the provider first"

/-- The Go runtime panic raised by a method call through a nil pointer. -/
def nilDereference : String :=
  "runtime error: invalid memory address or nil pointer dereference"

/-- The world before any provider is constructed:
`var providers = make([]providerAbstract, 0)`. -/
def World.init {T E : Type} (e : E) : World T E :=
  { heap := [], providers := [], env := e, calls := [] }

/-- Write the object behind pointer `a`. -/
def World.store {T E : Type} (w : World T E) (a : Nat) (p : provider T E) : World T E :=
  { w with heap := w.heap.set a p }

/-- The function `Provider`: allocate the struct with all flags false and the
values zero, append the pointer to `providers`, return the pointer. -/
def Provider {T E : Type} [Inhabited T] (createDependency : Prog T E) (w : World T E) :
    Nat × World T E :=
  let p : provider T E :=
    { createDependency := createDependency
      instance_ := default
      mock := default
      hasMock := false
      isPending := false
      hasInstance := false }
  (w.heap.length,
    { w with heap := w.heap ++ [p], providers := w.providers ++ [w.heap.length] })

/-- The body of the method `reset` on the struct. -/
def provider.reset {T E : Type} [Inhabited T] (p : provider T E) : provider T E :=
  { p with
    mock := default
    hasMock := false
    instance_ := default
    hasInstance := false
    isPending := false }

/-- The method call `p.reset()` through the pointer `a`. -/
def reset {T E : Type} [Inhabited T] (a : Nat) (w : World T E) :
    Except String Unit × World T E :=
  match w.heap[a]? with
  | none => (.error nilDereference, w)
  | some p => (.ok (), w.store a p.reset)

/-- The package function `Reset`: `for _, p := range providers { p.reset() }`. -/
def Reset {T E : Type} [Inhabited T] (w : World T E) : World T E :=
  w.providers.foldl (fun acc a => (reset a acc).2) w

/-- The method `Mock`. -/
def Mock {T E : Type} (a : Nat) (mockObject : T) (w : World T E) :
    Except String Unit × World T E :=
  match w.heap[a]? with
  | none => (.error nilDereference, w)
  | some p =>
    if p.hasInstance then
      (.error alreadyInitialized, w)
    else
      (.ok (), w.store a { p with mock := mockObject, hasMock := true })

/-- Run a factory body.  `useF` is the method `Use` the body may call. -/
def exec {T E : Type} [Inhabited T]
    (useF : Nat → World T E → Option (Except String T × World T E)) :
    Prog T E → World T E → Option (Except String T × World T E)
  | .ret v, w => some (.ok v, w)
  | .panic msg, w => some (.error msg, w)
  | .read k, w => exec useF (k w.env) w
  | .modify f k, w => exec useF k { w with env := f w.env }
  | .use a k, w =>
    match useF a w with
    | none => none
    | some (.error msg, w1) => some (.error msg, w1)
    | some (.ok v, w1) => exec useF (k v) w1
  | .mock a v k, w =>
    match Mock a v w with
    | (.error msg, w1) => some (.error msg, w1)
    | (.ok _, w1) => exec useF k w1
  | .reset a k, w =>
    match reset a w with
    | (.error msg, w1) => some (.error msg, w1)
    | (.ok _, w1) => exec useF k w1
  | .resetAll k, w => exec useF k (Reset w)
  | .construct f k, w => exec useF (k (Provider f w).1) (Provider f w).2

/-- The world in which `Use` invokes the factory of the provider `p` at
pointer `a`: `p.isPending = true` has been executed (and the invocation is
logged). -/
def World.enter {T E : Type} (w : World T E) (a : Nat) (p : provider T E) : World T E :=
  { w.store a { p with isPending := true } with calls := w.calls ++ [a] }

/-- The method `Use`.  Fuel is spent only where the factory is invoked. -/
def Use {T E : Type} [Inhabited T] :
    Nat → Nat → World T E → Option (Except String T × World T E)
  | fuel, a, w =>
    match w.heap[a]? with
    | none => some (.error nilDereference, w)
    | some p =>
      if p.hasMock then
        some (.ok p.mock, w)
      else if p.isPending then
        some (.error circularDependency, w)
      else if !p.hasInstance then
        match fuel with
        | 0 => none
        | n + 1 =>
          -- p.isPending = true; p.instance = p.createDependency()
          match exec (Use n) p.createDependency (w.enter a p) with
          | none => none
          | some (.error msg, w2) => some (.error msg, w2)
          | some (.ok v, w2) =>
            match w2.heap[a]? with
            | none => some (.error nilDereference, w2)
            | some q =>
              -- p.isPending = false; p.hasInstance = true
              let q1 : provider T E :=
                { q with instance_ := v, isPending := false, hasInstance := true }
              some (.ok q1.instance_, w2.store a q1)
      else
        some (.ok p.instance_, w)

/-- A call made by client code on the package. -/
inductive Call (T : Type) where
  /-- The call `q.Use()` through pointer `a`. -/
  | use (a : Nat) : Call T
  /-- The call `q.Mock(v)` through pointer `a`. -/
  | mock (a : Nat) (v : T) : Call T
  /-- The call `q.reset()` through pointer `a`. -/
  | reset (a : Nat) : Call T
  /-- The call `Reset()`. -/
  | resetAll : Call T

/-- One client call: the value returned (`none` for a call without result) or
the panic the client recovers from, and the world afterwards. -/
def call {T E : Type} [Inhabited T] (fuel : Nat) :
    Call T → World T E → Option (Except String (Option T) × World T E)
  | .use a, w =>
    match Use fuel a w with
    | none => none
    | some (.error msg, w1) => some (.error msg, w1)
    | some (.ok v, w1) => some (.ok (some v), w1)
  | .mock a v, w =>
    match Mock a v w with
    | (.error msg, w1) => some (.error msg, w1)
    | (.ok _, w1) => some (.ok none, w1)
  | .reset a, w =>
    match reset a w with
    | (.error msg, w1) => some (.error msg, w1)
    | (.ok _, w1) => some (.ok none, w1)
  | .resetAll, w => some (.ok none, Reset w)

/-- A client script: the calls are made one after the other, a panic being
recovered by the client before the next call. -/
def run {T E : Type} [Inhabited T] (fuel : Nat) :
    List (Call T) → World T E →
      Option (List (Except String (Option T)) × World T E)
  | [], w => some ([], w)
  | c :: cs, w =>
    match call fuel c w with
    | none => none
    | some (r, w1) =>
      match run fuel cs w1 with
      | none => none
      | some (rs, w2) => some (r :: rs, w2)

/-- A client call on one provider that is either `Mock(v)` or `Use()`. -/
inductive MockOrUse (T : Type) where
  | mock (v : T) : MockOrUse T
  | use : MockOrUse T

/-- The client call on the provider at pointer `a`. -/
def MockOrUse.toCall {T : Type} (a : Nat) : MockOrUse T → Call T
  | .mock v => .mock a v
  | .use => .use a

/-- What a script of `Mock` and `Use` calls is expected to give when the most
recent mock value is `cur`: each `Mock` succeeds, each `Use` returns the value
of the most recent `Mock`. -/
def mostRecentMock {T : Type} : T → List (MockOrUse T) → List (Except String (Option T))
  | _, [] => []
  | _, .mock v :: cs => .ok none :: mostRecentMock v cs
  | cur, .use :: cs => .ok (some cur) :: mostRecentMock cur cs

/-- The counting factory of the specification's scenario, on a captured
counter: `n += 1; return n`. -/
def counterFactory : Prog Nat Nat :=
  .modify (fun n => n + 1) (.read fun n => .ret n)

/-- One provider wrapping `counterFactory`, counter at 0, nothing used yet. -/
def counterWorld : World Nat Nat :=
  (Provider counterFactory (World.init 0)).2

/-- The world `counterWorld` after one `Use()`: the provider holds the
instance 1 and the counter is 1. -/
def counterUsed : World Nat Nat :=
  { heap := [{ createDependency := counterFactory, instance_ := 1, mock := 0,
               isPending := false, hasInstance := true, hasMock := false }]
    providers := [0]
    env := 1
    calls := [0] }

/-- Three providers registered out of construction order: the first pending,
the second mocked, the third instantiated. -/
def mixedWorld : World Nat Unit :=
  { heap := [{ createDependency := .ret 1, instance_ := 0, mock := 0,
               isPending := true, hasInstance := false, hasMock := false },
             { createDependency := .ret 2, instance_ := 0, mock := 8,
               isPending := false, hasInstance := false, hasMock := true },
             { createDependency := .ret 3, instance_ := 3, mock := 0,
               isPending := false, hasInstance := true, hasMock := false }]
    providers := [2, 0, 1]
    env := ()
    calls := [2] }

/-- The provider at pointer `a` is not in the state in which `Use` leaves it
while its factory runs (pending and un-mocked): it is mocked or not pending. -/
def World.touched {T E : Type} (a : Nat) (w : World T E) : Prop :=
  ∃ q, w.heap[a]? = some q ∧ (q.isPending = false ∨ q.hasMock = true)

/-- The provider at pointer `a` has the record `p` and its factory has been
invoked `c` times. -/
def World.untouched {T E : Type} (a : Nat) (p : provider T E) (c : Nat) (w : World T E) :
    Prop :=
  w.heap[a]? = some p ∧ w.calls.count a = c

/-- A factory that re-enters its own provider (pointer 0) the first time it
runs and returns 7 afterwards: it notes in a captured variable that it has
run. -/
def retryFactory : Prog Nat Nat :=
  .read fun n =>
    match n with
    | 0 => .modify (fun _ => 1) (.use 0 fun v => .ret v)
    | _ => .ret 7

/-- The provider at `a` does not have `hasMock` and `hasInstance` both true. -/
def World.exclusive {T E : Type} (a : Nat) (w : World T E) : Prop :=
  ∀ q, w.heap[a]? = some q → ¬(q.hasMock = true ∧ q.hasInstance = true)

/-- A client call on one given provider, or the package function `Reset`. -/
inductive OwnCall (T : Type) where
  | use : OwnCall T
  | mock (v : T) : OwnCall T
  | reset : OwnCall T
  | resetAll : OwnCall T

/-- The client call on the provider at pointer `a`. -/
def OwnCall.toCall {T : Type} (a : Nat) : OwnCall T → Call T
  | .use => .use a
  | .mock v => .mock a v
  | .reset => .reset a
  | .resetAll => .resetAll

/-- Whether the call is a reset (`reset()` on the provider or `Reset()`). -/
def OwnCall.isReset {T : Type} : OwnCall T → Bool
  | .reset => true
  | .resetAll => true
  | _ => false

/-- The number of resets in a script. -/
def resets {T : Type} (cs : List (OwnCall T)) : Nat :=
  (cs.filter OwnCall.isReset).length

/-- The invocations of the factory of the provider at `a` made so far, plus
one when the provider has no instance (the invocation its current epoch may
still make). -/
def World.budget {T E : Type} (a : Nat) (w : World T E) : Nat :=
  w.calls.count a +
    match w.heap[a]? with
    | some q => if q.hasInstance then 0 else 1
    | none => 0

/-- One provider wrapping `retryFactory`, nothing used yet. -/
def retryWorld : World Nat Nat :=
  (Provider retryFactory (World.init 0)).2

/-- The world `retryWorld` after its first `Use()` has panicked: the provider
is left pending. -/
def retryFailed : World Nat Nat :=
  { heap := [{ createDependency := retryFactory, instance_ := 0, mock := 0,
               isPending := true, hasInstance := false, hasMock := false }]
    providers := [0]
    env := 1
    calls := [0] }

/-- Whether, while the factory body runs from `w`, no run of the factory of
the provider at `a` returns a value with that provider mocked; `quietF`
answers for the `Use` calls the body makes, `useF` gives their outcome. -/
def execUnmocked {T E : Type} [Inhabited T]
    (useF : Nat → World T E → Option (Except String T × World T E))
    (quietF : Nat → World T E → Bool) : Prog T E → World T E → Bool
  | .ret _, _ => true
  | .panic _, _ => true
  | .read k, w => execUnmocked useF quietF (k w.env) w
  | .modify f k, w => execUnmocked useF quietF k { w with env := f w.env }
  | .use b k, w =>
    quietF b w &&
      match useF b w with
      | some (.ok v, w1) => execUnmocked useF quietF (k v) w1
      | _ => true
  | .mock b v k, w =>
    match Mock b v w with
    | (.ok _, w1) => execUnmocked useF quietF k w1
    | _ => true
  | .reset b k, w =>
    match reset b w with
    | (.ok _, w1) => execUnmocked useF quietF k w1
    | _ => true
  | .resetAll k, w => execUnmocked useF quietF k (Reset w)
  | .construct f k, w => execUnmocked useF quietF (k (Provider f w).1) (Provider f w).2

/-- Whether, during the call `Use()` on the provider at `b` in world `w`, no
run of the factory of the provider at `a` returns a value with that provider
mocked: neither a run started inside the factory that this `Use` invokes, nor,
when `b` is `a`, the run this `Use` makes itself. -/
def UseUnmocked {T E : Type} [Inhabited T] (a : Nat) : Nat → Nat → World T E → Bool
  | fuel, b, w =>
    match w.heap[b]? with
    | none => true
    | some p =>
      if p.hasMock || p.isPending || p.hasInstance then true
      else
        match fuel with
        | 0 => true
        | n + 1 =>
          execUnmocked (Use n) (UseUnmocked a n) p.createDependency (w.enter b p) &&
            match exec (Use n) p.createDependency (w.enter b p) with
            | some (.ok _, w2) =>
              if b = a then
                match w2.heap[a]? with
                | some q => !q.hasMock
                | none => true
              else true
            | _ => true

/-- Whether, during the client script, no run of the factory of the provider
at `a` returns a value with that provider mocked. -/
def runUnmocked {T E : Type} [Inhabited T] (a fuel : Nat) :
    List (Call T) → World T E → Bool
  | [], _ => true
  | c :: cs, w =>
    (match c with
      | .use b => UseUnmocked a fuel b w
      | _ => true) &&
      match call fuel c w with
      | some (_, w1) => runUnmocked a fuel cs w1
      | none => true

/-- One provider whose factory calls `Mock(9)` on its own provider, undoes it
with `reset()` and returns 3. -/
def mockResetWorld : World Nat Unit :=
  (Provider (.mock 0 9 (.reset 0 (.ret 3))) (World.init ())).2

/-- The world `mockResetWorld` after one `Use()`: the provider holds the
instance 3 and is not mocked. -/
def mockResetUsed : World Nat Unit :=
  { heap := [{ createDependency := .mock 0 9 (.reset 0 (.ret 3)), instance_ := 3, mock := 0,
               isPending := false, hasInstance := true, hasMock := false }]
    providers := [0]
    env := ()
    calls := [0] }

/-- Whether a `Use()` on the provider at `a` in world `w` that invokes the
factory sees it return a value without the provider having been re-entered:
the factory of the provider has not been invoked again meanwhile.  True when
that `Use()` would not invoke the factory. -/
def factoryBehaves {T E : Type} [Inhabited T] (fuel a : Nat) (w : World T E) : Bool :=
  match w.heap[a]? with
  | none => true
  | some p =>
    if p.hasMock || p.isPending || p.hasInstance then true
    else
      match exec (Use fuel) p.createDependency (w.enter a p) with
      | some (.ok _, w2) => w2.calls.count a == (w.enter a p).calls.count a
      | _ => false

/-- Whether the factory behaves at the client call `c` on the provider at `a`:
only a `Use()` can invoke it. -/
def callBehaves {T E : Type} [Inhabited T] (fuel a : Nat) : OwnCall T → World T E → Bool
  | .use, w => factoryBehaves fuel a w
  | _, _ => true

/-- Whether the factory behaves at every `Use()` of the script that invokes
it. -/
def scriptBehaves {T E : Type} [Inhabited T] (fuel a : Nat) :
    List (OwnCall T) → World T E → Bool
  | [], _ => true
  | c :: cs, w =>
    callBehaves fuel a c w &&
      match call (fuel + 1) (c.toCall a) w with
      | some (_, w1) => scriptBehaves fuel a cs w1
      | none => true

/-- Two providers: a plain dependency (pointer 0), and a provider (pointer 1)
whose factory uses it, increments a captured counter and returns the sum. -/
def dependentWorld : World Nat Nat :=
  (Provider (.use 0 fun v => .modify (fun n => n + 1) (.read fun n => .ret (n + v)))
    (Provider (.ret 5) (World.init 0)).2).2

/-- What no operation of the package changes once a provider is allocated:
the registry and the factory stored in each allocated provider. -/
def World.sameShape {T E : Type} (w w1 : World T E) : Prop :=
  w1.providers = w.providers ∧
    w1.heap.map (fun p => p.createDependency) = w.heap.map (fun p => p.createDependency)

/-- What a `Use` may change in the registry and the allocated factories: the
factories `fs` of the providers constructed meanwhile are appended to the
allocated ones, and their pointers, in the same order, to the registry. -/
def World.grows {T E : Type} (w w1 : World T E) : Prop :=
  ∃ fs : List (Prog T E),
    w1.heap.map (fun p => p.createDependency)
      = w.heap.map (fun p => p.createDependency) ++ fs ∧
    w1.providers = w.providers ++ List.range' w.heap.length fs.length

/-! ## Basic facts about the operations -/

section heapFacts

variable {T E : Type}

theorem heap_store_self (w : World T E) (a : Nat) (p q : provider T E)
    (hp : w.heap[a]? = some p) : (w.store a q).heap[a]? = some q := by
  have hlt : a < w.heap.length := by
    rcases List.getElem?_eq_some.1 hp with ⟨h, _⟩
    exact h
  simp [World.store, List.getElem?_set, hlt]

theorem heap_store_other (w : World T E) (a b : Nat) (q : provider T E) (hab : a ≠ b) :
    (w.store a q).heap[b]? = w.heap[b]? := by
  simp [World.store, List.getElem?_set, hab]

theorem sameShape_refl (w : World T E) : w.sameShape w := ⟨rfl, rfl⟩

theorem sameShape_trans {w w1 w2 : World T E} (h1 : w.sameShape w1) (h2 : w1.sameShape w2) :
    w.sameShape w2 := ⟨h2.1.trans h1.1, h2.2.trans h1.2⟩

theorem sameShape_length {w w1 : World T E} (h : w.sameShape w1) :
    w1.heap.length = w.heap.length := by
  have := congrArg List.length h.2
  simpa using this

theorem sameShape_store (w : World T E) (a : Nat) (p q : provider T E)
    (hp : w.heap[a]? = some p) (hq : q.createDependency = p.createDependency) :
    w.sameShape (w.store a q) := by
  refine ⟨rfl, ?_⟩
  apply List.ext_getElem?
  intro i
  by_cases hi : a = i
  · subst hi
    obtain ⟨hlt, hget⟩ := List.getElem?_eq_some.1 hp
    simp [World.store, List.getElem?_set, hq, hlt, hget]
  · simp [World.store, List.getElem?_set, hi]

theorem sameShape_env (w : World T E) (e : E) : w.sameShape { w with env := e } := ⟨rfl, rfl⟩

theorem sameShape_enter (w : World T E) (a : Nat) (p : provider T E)
    (hp : w.heap[a]? = some p) : w.sameShape (w.enter a p) := by
  have h := sameShape_store w a p { p with isPending := true } hp rfl
  exact ⟨h.1, h.2⟩

theorem sameShape_Mock (a : Nat) (v : T) (w : World T E) : w.sameShape (Mock a v w).2 := by
  unfold Mock
  split
  · exact sameShape_refl w
  · rename_i p hp
    split
    · exact sameShape_refl w
    · exact sameShape_store w a p _ hp rfl

theorem touched_env (a : Nat) (w : World T E) (e : E) (h : w.touched a) :
    World.touched a { w with env := e } := h

theorem touched_store_other (a b : Nat) (w : World T E) (q : provider T E) (hab : b ≠ a)
    (h : w.touched a) : (w.store b q).touched a := by
  obtain ⟨p, hp, hd⟩ := h
  exact ⟨p, by rw [heap_store_other w b a q hab]; exact hp, hd⟩

theorem touched_Mock (a b : Nat) (v : T) (w : World T E) (h : w.touched a)
    (_hok : (Mock b v w).1 = .ok ()) : (Mock b v w).2.touched a := by
  unfold Mock
  split
  · exact h
  · rename_i p hp
    split
    · exact h
    · by_cases hab : b = a
      · subst hab
        exact ⟨_, heap_store_self w b p _ hp, Or.inr rfl⟩
      · exact touched_store_other a b w _ hab h

theorem untouched_store_other (a b c : Nat) (p q : provider T E) (w : World T E)
    (hab : b ≠ a) (h : w.untouched a p c) : (w.store b q).untouched a p c :=
  ⟨by rw [heap_store_other w b a q hab]; exact h.1, h.2⟩

theorem frame_Mock (a c : Nat) (p : provider T E) (b : Nat) (v : T) (w : World T E)
    (h : w.untouched a p c ∨ w.touched a) (hok : (Mock b v w).1 = .ok ()) :
    (Mock b v w).2.untouched a p c ∨ (Mock b v w).2.touched a := by
  rcases h with h | h
  · by_cases hab : b = a
    · subst hab
      right
      have hM : Mock b v w = if p.hasInstance then (.error alreadyInitialized, w)
          else (.ok (), w.store b { p with mock := v, hasMock := true }) := by
        simp [Mock, h.1]
      cases hi : p.hasInstance with
      | true => rw [hM, hi] at hok; cases hok
      | false =>
        rw [hM, hi]
        exact ⟨_, heap_store_self w b p _ h.1, Or.inr rfl⟩
    · left
      unfold Mock
      split
      · exact h
      · split
        · exact h
        · exact untouched_store_other a b c p _ w hab h
  · exact Or.inr (touched_Mock a b v w h hok)

theorem sameShape_getElem? {w w1 : World T E} (h : w.sameShape w1) (a : Nat)
    (p : provider T E) (hp : w.heap[a]? = some p) :
    ∃ q, w1.heap[a]? = some q ∧ q.createDependency = p.createDependency := by
  have hmap := congrArg (fun l => l[a]?) h.2
  simp only [List.getElem?_map, hp, Option.map_some'] at hmap
  cases hq : w1.heap[a]? with
  | none => rw [hq] at hmap; cases hmap
  | some q =>
    rw [hq] at hmap
    simp only [Option.map_some', Option.some.injEq] at hmap
    exact ⟨q, rfl, hmap⟩

theorem calls_Mock (b : Nat) (v : T) (w : World T E) : (Mock b v w).2.calls = w.calls := by
  unfold Mock
  split
  · rfl
  · split <;> rfl

theorem heap_Mock_other (a b : Nat) (v : T) (w : World T E) (hab : b ≠ a) :
    (Mock b v w).2.heap[a]? = w.heap[a]? := by
  unfold Mock
  split
  · rfl
  · split
    · rfl
    · exact heap_store_other w b a _ hab

/-- At the client level `Mock` keeps `hasMock` and `hasInstance` apart on
every provider: it sets `hasMock` only where `hasInstance` is false. -/
theorem exclusive_Mock (a b : Nat) (v : T) (w : World T E) (h : w.exclusive a) :
    (Mock b v w).2.exclusive a := by
  by_cases hab : b = a
  · subst hab
    unfold Mock
    split
    · exact h
    · rename_i p hp
      cases hi : p.hasInstance with
      | true => simpa using h
      | false =>
        simp only [Bool.false_eq_true, if_false]
        intro q hq
        rw [heap_store_self w b p _ hp] at hq
        cases hq
        simp [hi]
  · intro q hq
    rw [heap_Mock_other a b v w hab] at hq
    exact h q hq

theorem budget_eq (a : Nat) (w : World T E) (q : provider T E) (hq : w.heap[a]? = some q) :
    w.budget a = w.calls.count a + if q.hasInstance then 0 else 1 := by
  simp [World.budget, hq]

theorem count_le_budget (a : Nat) (w : World T E) : w.calls.count a ≤ w.budget a := by
  unfold World.budget
  omega

theorem budget_le_count (a : Nat) (w : World T E) : w.budget a ≤ w.calls.count a + 1 := by
  unfold World.budget
  split
  · split <;> omega
  · omega

theorem resets_append (l1 l2 : List (OwnCall T)) : resets (l1 ++ l2) = resets l1 + resets l2 := by
  simp [resets, List.filter_append]

theorem grows_of_sameShape {w w1 : World T E} (h : w.sameShape w1) : w.grows w1 :=
  ⟨[], by simpa using h.2, by simpa using h.1⟩

theorem grows_refl (w : World T E) : w.grows w := grows_of_sameShape (sameShape_refl w)

theorem grows_length_eq {w w1 : World T E} (fs : List (Prog T E))
    (h : w1.heap.map (fun p => p.createDependency)
      = w.heap.map (fun p => p.createDependency) ++ fs) :
    w1.heap.length = w.heap.length + fs.length := by
  have := congrArg List.length h
  simpa using this

theorem grows_trans {w w1 w2 : World T E} (h1 : w.grows w1) (h2 : w1.grows w2) :
    w.grows w2 := by
  obtain ⟨fs1, hm1, hp1⟩ := h1
  obtain ⟨fs2, hm2, hp2⟩ := h2
  refine ⟨fs1 ++ fs2, by rw [hm2, hm1, List.append_assoc], ?_⟩
  rw [hp2, hp1, grows_length_eq fs1 hm1, List.append_assoc, List.range'_append_1,
    List.length_append, Nat.add_comm fs2.length]

theorem grows_getElem? {w w1 : World T E} (h : w.grows w1) (a : Nat)
    (p : provider T E) (hp : w.heap[a]? = some p) :
    ∃ q, w1.heap[a]? = some q ∧ q.createDependency = p.createDependency := by
  obtain ⟨fs, hm, _⟩ := h
  have hlt : a < (w.heap.map (fun p => p.createDependency)).length := by
    simpa using (List.getElem?_eq_some.1 hp).1
  have hmap := congrArg (fun l => l[a]?) hm
  simp only [List.getElem?_append_left hlt, List.getElem?_map, hp, Option.map_some'] at hmap
  cases hq : w1.heap[a]? with
  | none => rw [hq] at hmap; cases hmap
  | some q =>
    rw [hq] at hmap
    simp only [Option.map_some', Option.some.injEq] at hmap
    exact ⟨q, rfl, hmap⟩

theorem grows_mem {w w1 : World T E} (h : w.grows w1) (a : Nat) (ha : a ∈ w.providers) :
    a ∈ w1.providers := by
  obtain ⟨fs, _, hp⟩ := h
  rw [hp]
  exact List.mem_append_left _ ha

theorem exclusive_store_other (a b : Nat) (w : World T E) (q : provider T E) (hab : b ≠ a)
    (h : w.exclusive a) : (w.store b q).exclusive a := by
  intro q1 hq1
  rw [heap_store_other w b a q hab] at hq1
  exact h q1 hq1

end heapFacts

section basics

variable {T E : Type} [Inhabited T]

theorem Use_of_hasMock (fuel a : Nat) (w : World T E) (p : provider T E)
    (hp : w.heap[a]? = some p) (hm : p.hasMock = true) :
    Use fuel a w = some (.ok p.mock, w) := by
  unfold Use
  simp [hp, hm]

theorem Use_of_nil (fuel a : Nat) (w : World T E) (hp : w.heap[a]? = none) :
    Use fuel a w = some (.error nilDereference, w) := by
  unfold Use
  simp [hp]

theorem Use_zero_of_empty (a : Nat) (w : World T E) (p : provider T E)
    (hp : w.heap[a]? = some p) (hm : p.hasMock = false) (hpend : p.isPending = false)
    (hi : p.hasInstance = false) : Use 0 a w = none := by
  unfold Use
  simp [hp, hm, hpend, hi]

theorem Use_of_isPending (fuel a : Nat) (w : World T E) (p : provider T E)
    (hp : w.heap[a]? = some p) (hm : p.hasMock = false) (hpend : p.isPending = true) :
    Use fuel a w = some (.error circularDependency, w) := by
  unfold Use
  simp [hp, hm, hpend]

theorem Use_of_hasInstance (fuel a : Nat) (w : World T E) (p : provider T E)
    (hp : w.heap[a]? = some p) (hm : p.hasMock = false) (hpend : p.isPending = false)
    (hi : p.hasInstance = true) :
    Use fuel a w = some (.ok p.instance_, w) := by
  unfold Use
  simp [hp, hm, hpend, hi]

theorem Use_of_empty (fuel a : Nat) (w : World T E) (p : provider T E)
    (hp : w.heap[a]? = some p) (hm : p.hasMock = false) (hpend : p.isPending = false)
    (hi : p.hasInstance = false) :
    Use (fuel + 1) a w =
      match exec (Use fuel) p.createDependency (w.enter a p) with
      | none => none
      | some (.error msg, w2) => some (.error msg, w2)
      | some (.ok v, w2) =>
        match w2.heap[a]? with
        | none => some (.error nilDereference, w2)
        | some q =>
          some (.ok v,
            w2.store a { q with instance_ := v, isPending := false, hasInstance := true }) := by
  rw [Use]
  simp [hp, hm, hpend, hi]

theorem sameShape_reset (a : Nat) (w : World T E) : w.sameShape (reset a w).2 := by
  unfold reset
  split
  · exact sameShape_refl w
  · rename_i p hp
    exact sameShape_store w a p _ hp rfl

theorem sameShape_foldl_reset (l : List Nat) (w : World T E) :
    w.sameShape (l.foldl (fun acc a => (reset a acc).2) w) := by
  induction l generalizing w with
  | nil => exact sameShape_refl w
  | cons a l ih => exact sameShape_trans (sameShape_reset a w) (ih _)

theorem sameShape_Reset (w : World T E) : w.sameShape (Reset w) :=
  sameShape_foldl_reset w.providers w

theorem run_use_of_hasMock (fuel a n : Nat) (w : World T E) (p : provider T E)
    (hp : w.heap[a]? = some p) (hm : p.hasMock = true) :
    run fuel (List.replicate n (Call.use a)) w
      = some (List.replicate n (.ok (some p.mock)), w) := by
  induction n with
  | zero => rfl
  | succ n ih =>
    simp [List.replicate_succ, run, call, Use_of_hasMock fuel a w p hp hm, ih]

theorem run_use_of_hasInstance (fuel a n : Nat) (w : World T E) (p : provider T E)
    (hp : w.heap[a]? = some p) (hm : p.hasMock = false) (hpend : p.isPending = false)
    (hi : p.hasInstance = true) :
    run fuel (List.replicate n (Call.use a)) w
      = some (List.replicate n (.ok (some p.instance_)), w) := by
  induction n with
  | zero => rfl
  | succ n ih =>
    simp [List.replicate_succ, run, call, Use_of_hasInstance fuel a w p hp hm hpend hi, ih]

/-- The first `Use` on an empty provider whose factory returns `v`: the result
is `v` and the provider caches it. -/
theorem Use_of_factory_ok (fuel a : Nat) (w w2 : World T E) (p q : provider T E) (v : T)
    (hp : w.heap[a]? = some p) (hm : p.hasMock = false) (hpend : p.isPending = false)
    (hi : p.hasInstance = false)
    (hrun : exec (Use fuel) p.createDependency (w.enter a p) = some (.ok v, w2))
    (hq : w2.heap[a]? = some q) :
    Use (fuel + 1) a w = some (.ok v,
      w2.store a { q with instance_ := v, isPending := false, hasInstance := true }) := by
  rw [Use_of_empty fuel a w p hp hm hpend hi, hrun]
  simp [hq]

theorem heap_reset (a b : Nat) (w : World T E) :
    (reset a w).2.heap[b]? =
      if b = a then (w.heap[b]?).map provider.reset else w.heap[b]? := by
  unfold reset
  split
  · rename_i hnone
    by_cases hba : b = a
    · subst hba; simp [hnone]
    · simp [hba]
  · rename_i p hp
    by_cases hba : b = a
    · subst hba; simp [heap_store_self w b p _ hp, hp]
    · simp [hba, heap_store_other w a b _ (Ne.symm hba)]

theorem heap_foldl_reset (l : List Nat) (w : World T E) (b : Nat) :
    (l.foldl (fun acc a => (reset a acc).2) w).heap[b]? =
      if b ∈ l then (w.heap[b]?).map provider.reset else w.heap[b]? := by
  induction l generalizing w with
  | nil => simp
  | cons a l ih =>
    rw [List.foldl_cons, ih, heap_reset]
    by_cases hba : b = a
    · subst hba
      by_cases hbl : b ∈ l
      · cases hb : w.heap[b]? <;> simp [hbl, provider.reset]
      · simp [hbl]
    · by_cases hbl : b ∈ l <;> simp [hba, hbl]

theorem heap_Reset (w : World T E) (b : Nat) :
    (Reset w).heap[b]? =
      if b ∈ w.providers then (w.heap[b]?).map provider.reset else w.heap[b]? :=
  heap_foldl_reset w.providers w b

theorem ghost_foldl_reset (l : List Nat) (w : World T E) :
    (l.foldl (fun acc a => (reset a acc).2) w).calls = w.calls ∧
    (l.foldl (fun acc a => (reset a acc).2) w).env = w.env := by
  induction l generalizing w with
  | nil => exact ⟨rfl, rfl⟩
  | cons a l ih =>
    rw [List.foldl_cons]
    have h1 : (reset a w).2.calls = w.calls ∧ (reset a w).2.env = w.env := by
      unfold reset
      split <;> exact ⟨rfl, rfl⟩
    exact ⟨(ih _).1.trans h1.1, (ih _).2.trans h1.2⟩

theorem calls_Reset (w : World T E) : (Reset w).calls = w.calls :=
  (ghost_foldl_reset w.providers w).1

theorem run_mocked (fuel a : Nat) (cs : List (MockOrUse T)) (w : World T E)
    (p : provider T E) (hp : w.heap[a]? = some p) (hi : p.hasInstance = false)
    (hm : p.hasMock = true) :
    ∃ w1 q, run fuel (cs.map (MockOrUse.toCall a)) w = some (mostRecentMock p.mock cs, w1) ∧
      w1.calls = w.calls ∧ w1.heap[a]? = some q ∧ q.hasInstance = false := by
  induction cs generalizing w p with
  | nil => exact ⟨w, p, rfl, rfl, hp, hi⟩
  | cons c cs ih =>
    cases c with
    | mock v =>
      have hM : Mock a v w = (.ok (), w.store a { p with mock := v, hasMock := true }) := by
        simp [Mock, hp, hi]
      obtain ⟨w1, q, hrun, hcalls, hq, hqi⟩ :=
        ih (w.store a { p with mock := v, hasMock := true }) { p with mock := v, hasMock := true }
          (heap_store_self w a p _ hp) hi rfl
      refine ⟨w1, q, ?_, hcalls, hq, hqi⟩
      simp only [List.map_cons, MockOrUse.toCall, run, call, hM, hrun, mostRecentMock]
    | use =>
      obtain ⟨w1, q, hrun, hcalls, hq, hqi⟩ := ih w p hp hi hm
      refine ⟨w1, q, ?_, hcalls, hq, hqi⟩
      simp only [List.map_cons, MockOrUse.toCall, run, call, Use_of_hasMock fuel a w p hp hm,
        hrun, mostRecentMock]

theorem heap_Provider (f : Prog T E) (w : World T E) (a : Nat) (p : provider T E)
    (hp : w.heap[a]? = some p) : (Provider f w).2.heap[a]? = some p := by
  have hlt : a < w.heap.length := (List.getElem?_eq_some.1 hp).1
  show (w.heap ++ [_])[a]? = some p
  rw [List.getElem?_append_left hlt]; exact hp

theorem grows_Provider (f : Prog T E) (w : World T E) : w.grows (Provider f w).2 :=
  ⟨[f], by simp [Provider], by simp [Provider]⟩

theorem touched_Provider (a : Nat) (f : Prog T E) (w : World T E) (h : w.touched a) :
    (Provider f w).2.touched a := by
  obtain ⟨q, hq, hd⟩ := h
  exact ⟨q, heap_Provider f w a q hq, hd⟩

theorem frame_Provider (a c : Nat) (p : provider T E) (f : Prog T E) (w : World T E)
    (h : w.untouched a p c ∨ w.touched a) :
    (Provider f w).2.untouched a p c ∨ (Provider f w).2.touched a := by
  rcases h with h | h
  · exact Or.inl ⟨heap_Provider f w a p h.1, h.2⟩
  · exact Or.inr (touched_Provider a f w h)

/-- A property of worlds that assignments to captured variables, `Mock`,
`reset` and `Provider` keep, and that `useF` keeps when it returns a value, is kept by every
factory body that returns a value. -/
theorem exec_preserves (I : World T E → Prop)
    (useF : Nat → World T E → Option (Except String T × World T E))
    (henv : ∀ w e, I w → I { w with env := e })
    (hMock : ∀ b v w, I w → (Mock b v w).1 = .ok () → I (Mock b v w).2)
    (hreset : ∀ b w, I w → I (reset b w).2)
    (hcons : ∀ f w, I w → I (Provider f w).2)
    (huse : ∀ b w v w1, useF b w = some (.ok v, w1) → I w → I w1)
    (prog : Prog T E) (w : World T E) (v : T) (w1 : World T E)
    (h : exec useF prog w = some (.ok v, w1)) (hI : I w) : I w1 := by
  induction prog generalizing w with
  | ret u =>
    simp only [exec, Option.some.injEq, Prod.mk.injEq] at h
    rw [← h.2]; exact hI
  | panic msg => simp [exec] at h
  | read k ih =>
    simp only [exec] at h
    exact ih _ w h hI
  | modify f k ih =>
    simp only [exec] at h
    exact ih _ h (henv w _ hI)
  | use b k ih =>
    simp only [exec] at h
    split at h
    · cases h
    · cases h
    · rename_i u w2 hu
      exact ih u w2 h (huse b w u w2 hu hI)
  | mock b u k ih =>
    simp only [exec] at h
    split at h
    · cases h
    · rename_i x w2 hM
      have := hMock b u w hI (by rw [hM])
      rw [hM] at this
      exact ih w2 h this
  | reset b k ih =>
    simp only [exec] at h
    split at h
    · cases h
    · rename_i x w2 hM
      have := hreset b w hI
      rw [hM] at this
      exact ih w2 h this
  | resetAll k ih =>
    simp only [exec] at h
    refine ih _ h ?_
    have hfold : ∀ (l : List Nat) (w0 : World T E), I w0 →
        I (l.foldl (fun acc a => (reset a acc).2) w0) := by
      intro l
      induction l with
      | nil => intro w0 h0; exact h0
      | cons a l ihl => intro w0 h0; exact ihl _ (hreset a w0 h0)
    exact hfold w.providers w hI
  | construct f k _ ih =>
    simp only [exec] at h
    exact ih _ _ h (hcons f w hI)

theorem touched_reset (a b : Nat) (w : World T E) (h : w.touched a) :
    (reset b w).2.touched a := by
  unfold reset
  split
  · exact h
  · rename_i p hp
    by_cases hab : b = a
    · subst hab
      exact ⟨_, heap_store_self w b p _ hp, Or.inl rfl⟩
    · exact touched_store_other a b w _ hab h

/-- Once the provider at `a` has been operated on, it never again is in the
pending, un-mocked state at the return of a `Use` that returns a value. -/
theorem touched_Use (a : Nat) (fuel b : Nat) (w : World T E) (v : T) (w1 : World T E)
    (h : Use fuel b w = some (.ok v, w1)) (hI : w.touched a) : w1.touched a := by
  induction fuel generalizing b w v w1 with
  | zero =>
    cases hp : w.heap[b]? with
    | none => rw [Use_of_nil 0 b w hp] at h; cases h
    | some p =>
      cases hm : p.hasMock with
      | true => rw [Use_of_hasMock 0 b w p hp hm] at h; cases h; exact hI
      | false =>
        cases hpend : p.isPending with
        | true => rw [Use_of_isPending 0 b w p hp hm hpend] at h; cases h
        | false =>
          cases hi : p.hasInstance with
          | true => rw [Use_of_hasInstance 0 b w p hp hm hpend hi] at h; cases h; exact hI
          | false => rw [Use_zero_of_empty b w p hp hm hpend hi] at h; cases h
  | succ n ih =>
    cases hp : w.heap[b]? with
    | none => rw [Use_of_nil _ b w hp] at h; cases h
    | some p =>
      cases hm : p.hasMock with
      | true => rw [Use_of_hasMock _ b w p hp hm] at h; cases h; exact hI
      | false =>
        cases hpend : p.isPending with
        | true => rw [Use_of_isPending _ b w p hp hm hpend] at h; cases h
        | false =>
          cases hi : p.hasInstance with
          | true => rw [Use_of_hasInstance _ b w p hp hm hpend hi] at h; cases h; exact hI
          | false =>
            rw [Use_of_empty n b w p hp hm hpend hi] at h
            split at h
            · cases h
            · cases h
            · rename_i u w2 he
              split at h
              · cases h
              · rename_i q hq
                cases h
                by_cases hab : b = a
                · subst hab
                  exact ⟨_, heap_store_self w2 b q _ hq, Or.inl rfl⟩
                · refine touched_store_other a b w2 _ hab ?_
                  have hent : (w.enter b p).touched a := by
                    obtain ⟨r, hr, hd⟩ := hI
                    exact ⟨r, by
                      show (w.store b _).heap[a]? = some r
                      rw [heap_store_other w b a _ hab]; exact hr, hd⟩
                  exact exec_preserves (World.touched a) (Use n) (touched_env a)
                    (fun b v w hw hok => touched_Mock a b v w hw hok)
                    (fun b w hw => touched_reset a b w hw)
                    (fun f w hw => touched_Provider a f w hw)
                    (fun b w v w1 hu hw => ih b w v w1 hu hw)
                    p.createDependency _ _ w2 he hent

theorem frame_reset (a c : Nat) (p : provider T E) (b : Nat) (w : World T E)
    (h : w.untouched a p c ∨ w.touched a) :
    (reset b w).2.untouched a p c ∨ (reset b w).2.touched a := by
  rcases h with h | h
  · by_cases hab : b = a
    · subst hab
      right
      have hR : reset b w = (.ok (), w.store b p.reset) := by simp [reset, h.1]
      rw [hR]
      exact ⟨_, heap_store_self w b p _ h.1, Or.inl rfl⟩
    · left
      unfold reset
      split
      · exact h
      · exact untouched_store_other a b c p _ w hab h
  · exact Or.inr (touched_reset a b w h)

/-- While the provider at `a` is pending and un-mocked with record `p`, a
`Use` that returns a value either has left that record and the number of
invocations of its factory alone, or has taken the provider out of the
pending, un-mocked state for good. -/
theorem frame_Use (a c : Nat) (p : provider T E) (hpend : p.isPending = true)
    (hm : p.hasMock = false) (fuel b : Nat) (w : World T E) (v : T) (w1 : World T E)
    (h : Use fuel b w = some (.ok v, w1)) (hI : w.untouched a p c ∨ w.touched a) :
    w1.untouched a p c ∨ w1.touched a := by
  rcases hI with hI | hI
  swap
  · exact Or.inr (touched_Use a fuel b w v w1 h hI)
  by_cases hab : b = a
  · subst hab
    rw [Use_of_isPending fuel b w p hI.1 hm hpend] at h
    cases h
  induction fuel generalizing b w v w1 with
  | zero =>
    cases hp : w.heap[b]? with
    | none => rw [Use_of_nil 0 b w hp] at h; cases h
    | some q =>
      cases hqm : q.hasMock with
      | true => rw [Use_of_hasMock 0 b w q hp hqm] at h; cases h; exact Or.inl hI
      | false =>
        cases hqp : q.isPending with
        | true => rw [Use_of_isPending 0 b w q hp hqm hqp] at h; cases h
        | false =>
          cases hqi : q.hasInstance with
          | true =>
            rw [Use_of_hasInstance 0 b w q hp hqm hqp hqi] at h; cases h; exact Or.inl hI
          | false => rw [Use_zero_of_empty b w q hp hqm hqp hqi] at h; cases h
  | succ n ih =>
    cases hp : w.heap[b]? with
    | none => rw [Use_of_nil _ b w hp] at h; cases h
    | some q =>
      cases hqm : q.hasMock with
      | true => rw [Use_of_hasMock _ b w q hp hqm] at h; cases h; exact Or.inl hI
      | false =>
        cases hqp : q.isPending with
        | true => rw [Use_of_isPending _ b w q hp hqm hqp] at h; cases h
        | false =>
          cases hqi : q.hasInstance with
          | true =>
            rw [Use_of_hasInstance _ b w q hp hqm hqp hqi] at h; cases h; exact Or.inl hI
          | false =>
            rw [Use_of_empty n b w q hp hqm hqp hqi] at h
            split at h
            · cases h
            · cases h
            · rename_i u w2 he
              split at h
              · cases h
              · rename_i r hr
                cases h
                have hent : (w.enter b q).untouched a p c := by
                  refine ⟨?_, ?_⟩
                  · show (w.store b _).heap[a]? = some p
                    rw [heap_store_other w b a _ hab]; exact hI.1
                  · show (w.calls ++ [b]).count a = c
                    rw [List.count_append, hI.2]
                    have : List.count a [b] = 0 :=
                      List.count_eq_zero.2 (by simpa using Ne.symm hab)
                    omega
                have huse : ∀ (b1 : Nat) (w0 : World T E) (v0 : T) (w3 : World T E),
                    Use n b1 w0 = some (.ok v0, w3) → (w0.untouched a p c ∨ w0.touched a) →
                    (w3.untouched a p c ∨ w3.touched a) := by
                  intro b1 w0 v0 w3 hu h0
                  rcases h0 with h0 | h0
                  · by_cases hb1 : b1 = a
                    · subst hb1
                      rw [Use_of_isPending n b1 w0 p h0.1 hm hpend] at hu
                      cases hu
                    · exact ih b1 w0 v0 w3 hu h0 hb1
                  · exact Or.inr (touched_Use a n b1 w0 v0 w3 hu h0)
                have h2 := exec_preserves (fun w0 => w0.untouched a p c ∨ w0.touched a) (Use n)
                  (fun w0 e h0 => h0)
                  (fun b1 v0 w0 h0 hok => frame_Mock a c p b1 v0 w0 h0 hok)
                  (fun b1 w0 h0 => frame_reset a c p b1 w0 h0)
                  (fun f w0 h0 => frame_Provider a c p f w0 h0)
                  huse q.createDependency _ _ w2 he (Or.inl hent)
                rcases h2 with h2 | h2
                · exact Or.inl (untouched_store_other a b c p _ w2 hab h2)
                · exact Or.inr (touched_store_other a b w2 _ hab h2)

/-- A factory run that returns a value and, at its return, shows the provider
as `Use` set it on entry has not invoked that provider's factory again. -/
theorem calls_of_frame (fuel a : Nat) (w w2 : World T E) (p : provider T E) (v : T)
    (hp : w.heap[a]? = some p) (hm : p.hasMock = false)
    (hrun : exec (Use fuel) p.createDependency (w.enter a p) = some (.ok v, w2))
    (hframe : w2.heap[a]? = some { p with isPending := true }) :
    w2.calls.count a = w.calls.count a + 1 := by
  have hent : (w.enter a p).untouched a { p with isPending := true } (w.calls.count a + 1) :=
    ⟨heap_store_self w a p _ hp, by
      show (w.calls ++ [a]).count a = _
      simp [List.count_append]⟩
  have h2 := exec_preserves
    (fun w0 => w0.untouched a { p with isPending := true } (w.calls.count a + 1) ∨ w0.touched a)
    (Use fuel) (fun w0 e h0 => h0)
    (fun b1 v0 w0 h0 hok => frame_Mock a _ _ b1 v0 w0 h0 hok)
    (fun b1 w0 h0 => frame_reset a _ _ b1 w0 h0)
    (fun f w0 h0 => frame_Provider a _ _ f w0 h0)
    (fun b1 w0 v0 w3 hu h0 =>
      frame_Use a _ { p with isPending := true } rfl hm fuel b1 w0 v0 w3 hu h0)
    p.createDependency _ v w2 hrun (Or.inl hent)
  rcases h2 with h2 | ⟨q, hq, hd⟩
  · exact h2.2
  · rw [hframe] at hq
    cases hq
    rcases hd with hd | hd
    · cases hd
    · simp [hm] at hd

/-- A factory body that finishes with some `Use` finishes the same way with
any `Use` that finishes at least as often. -/
theorem exec_mono (useF useG : Nat → World T E → Option (Except String T × World T E))
    (hFG : ∀ b w r, useF b w = some r → useG b w = some r)
    (prog : Prog T E) (w : World T E) (r : Except String T × World T E)
    (h : exec useF prog w = some r) : exec useG prog w = some r := by
  induction prog generalizing w with
  | ret u => simpa only [exec] using h
  | panic msg => simpa only [exec] using h
  | read k ih =>
    simp only [exec] at h ⊢
    exact ih _ w h
  | modify f k ih =>
    simp only [exec] at h ⊢
    exact ih _ h
  | use b k ih =>
    simp only [exec] at h ⊢
    split at h
    · cases h
    · rename_i msg w2 hu
      rw [hFG b w _ hu]
      exact h
    · rename_i u w2 hu
      rw [hFG b w _ hu]
      exact ih u w2 h
  | mock b u k ih =>
    simp only [exec] at h ⊢
    split at h
    · exact h
    · exact ih _ h
  | reset b k ih =>
    simp only [exec] at h ⊢
    split at h
    · exact h
    · exact ih _ h
  | resetAll k ih =>
    simp only [exec] at h ⊢
    exact ih _ h
  | construct f k _ ih =>
    simp only [exec] at h ⊢
    exact ih _ _ h

/-- More fuel does not change the outcome of a `Use` that finished. -/
theorem Use_mono_succ (n a : Nat) (w : World T E) (r : Except String T × World T E)
    (h : Use n a w = some r) : Use (n + 1) a w = some r := by
  induction n generalizing a w r with
  | zero =>
    cases hp : w.heap[a]? with
    | none => rw [Use_of_nil _ a w hp] at h ⊢; exact h
    | some p =>
      cases hm : p.hasMock with
      | true => rw [Use_of_hasMock _ a w p hp hm] at h ⊢; exact h
      | false =>
        cases hpend : p.isPending with
        | true => rw [Use_of_isPending _ a w p hp hm hpend] at h ⊢; exact h
        | false =>
          cases hi : p.hasInstance with
          | true => rw [Use_of_hasInstance _ a w p hp hm hpend hi] at h ⊢; exact h
          | false => rw [Use_zero_of_empty a w p hp hm hpend hi] at h; cases h
  | succ n ih =>
    cases hp : w.heap[a]? with
    | none => rw [Use_of_nil _ a w hp] at h ⊢; exact h
    | some p =>
      cases hm : p.hasMock with
      | true => rw [Use_of_hasMock _ a w p hp hm] at h ⊢; exact h
      | false =>
        cases hpend : p.isPending with
        | true => rw [Use_of_isPending _ a w p hp hm hpend] at h ⊢; exact h
        | false =>
          cases hi : p.hasInstance with
          | true => rw [Use_of_hasInstance _ a w p hp hm hpend hi] at h ⊢; exact h
          | false =>
            rw [Use_of_empty n a w p hp hm hpend hi] at h
            rw [Use_of_empty (n + 1) a w p hp hm hpend hi]
            cases he : exec (Use n) p.createDependency (w.enter a p) with
            | none => rw [he] at h; cases h
            | some r2 =>
              rw [he] at h
              rw [exec_mono (Use n) (Use (n + 1)) (fun b w0 r0 h0 => ih b w0 r0 h0)
                p.createDependency _ r2 he]
              exact h

theorem Use_mono (n m a : Nat) (w : World T E) (r : Except String T × World T E)
    (hnm : n ≤ m) (h : Use n a w = some r) : Use m a w = some r := by
  induction hnm with
  | refl => exact h
  | step _ ih => exact Use_mono_succ _ a w r ih

theorem Use_counterWorld : Use 1 0 counterWorld = some (.ok 1, counterUsed) := rfl

theorem reset_eq_of_createDependency (p q : provider T E)
    (h : q.createDependency = p.createDependency) : q.reset = p.reset := by
  simp [provider.reset, h]

theorem calls_reset (b : Nat) (w : World T E) : (reset b w).2.calls = w.calls := by
  unfold reset
  split <;> rfl

/-- The ways in which a `Use` can finish: without touching the world (mock,
cached instance, or a panic before the factory is called), or through a call
of the factory of an empty provider. -/
theorem Use_cases (fuel b : Nat) (w : World T E) (r : Except String T) (w1 : World T E)
    (h : Use fuel b w = some (r, w1)) :
    w1 = w ∨
    ∃ n p, fuel = n + 1 ∧ w.heap[b]? = some p ∧ p.hasMock = false ∧ p.isPending = false ∧
      p.hasInstance = false ∧
      ((∃ msg, exec (Use n) p.createDependency (w.enter b p) = some (.error msg, w1) ∧
          r = .error msg) ∨
       (∃ v w2 q, exec (Use n) p.createDependency (w.enter b p) = some (.ok v, w2) ∧
          w2.heap[b]? = some q ∧ r = .ok v ∧
          w1 = w2.store b { q with instance_ := v, isPending := false, hasInstance := true }) ∨
       (∃ v, exec (Use n) p.createDependency (w.enter b p) = some (.ok v, w1) ∧
          w1.heap[b]? = none)) := by
  cases hp : w.heap[b]? with
  | none => rw [Use_of_nil _ b w hp] at h; cases h; exact Or.inl rfl
  | some p =>
    cases hm : p.hasMock with
    | true => rw [Use_of_hasMock _ b w p hp hm] at h; cases h; exact Or.inl rfl
    | false =>
      cases hpend : p.isPending with
      | true => rw [Use_of_isPending _ b w p hp hm hpend] at h; cases h; exact Or.inl rfl
      | false =>
        cases hi : p.hasInstance with
        | true => rw [Use_of_hasInstance _ b w p hp hm hpend hi] at h; cases h; exact Or.inl rfl
        | false =>
          cases fuel with
          | zero => rw [Use_zero_of_empty b w p hp hm hpend hi] at h; cases h
          | succ n =>
            right
            refine ⟨n, p, rfl, rfl, hm, hpend, hi, ?_⟩
            rw [Use_of_empty n b w p hp hm hpend hi] at h
            split at h
            · cases h
            · rename_i msg w2 he
              cases h
              exact Or.inl ⟨msg, he, rfl⟩
            · rename_i v w2 he
              split at h
              · rename_i hnone
                cases h
                exact Or.inr (Or.inr ⟨v, he, hnone⟩)
              · rename_i q hq
                cases h
                exact Or.inr (Or.inl ⟨v, w2, q, he, hq, rfl, rfl⟩)

theorem grows_exec
    (useF : Nat → World T E → Option (Except String T × World T E))
    (huse : ∀ a w r w1, useF a w = some (r, w1) → w.grows w1)
    (prog : Prog T E) (w : World T E) (r : Except String T) (w1 : World T E)
    (h : exec useF prog w = some (r, w1)) : w.grows w1 := by
  induction prog generalizing w with
  | ret v =>
    simp only [exec, Option.some.injEq, Prod.mk.injEq] at h
    rw [← h.2]
    exact grows_refl w
  | panic msg =>
    simp only [exec, Option.some.injEq, Prod.mk.injEq] at h
    rw [← h.2]
    exact grows_refl w
  | read k ih =>
    simp only [exec] at h
    exact ih _ w h
  | modify f k ih =>
    simp only [exec] at h
    exact grows_trans (grows_of_sameShape (sameShape_env w _)) (ih _ h)
  | use a k ih =>
    simp only [exec] at h
    split at h
    · cases h
    · rename_i msg w2 hu
      cases h
      exact huse a w _ _ hu
    · rename_i v w2 hu
      exact grows_trans (huse a w _ w2 hu) (ih v w2 h)
  | mock a v k ih =>
    simp only [exec] at h
    have hM := grows_of_sameShape (sameShape_Mock a v w)
    split at h
    · rename_i msg w2 hm
      cases h
      rw [hm] at hM; exact hM
    · rename_i u w2 hm
      rw [hm] at hM
      exact grows_trans hM (ih w2 h)
  | reset a k ih =>
    simp only [exec] at h
    have hR := grows_of_sameShape (sameShape_reset a w)
    split at h
    · rename_i msg w2 hm
      cases h
      rw [hm] at hR; exact hR
    · rename_i u w2 hm
      rw [hm] at hR
      exact grows_trans hR (ih w2 h)
  | resetAll k ih =>
    simp only [exec] at h
    exact grows_trans (grows_of_sameShape (sameShape_Reset w)) (ih _ h)
  | construct f k _ ih =>
    simp only [exec] at h
    exact grows_trans (grows_Provider f w) (ih _ _ h)

/-- However a `Use` finishes, the registry it leaves is the old one followed
by the pointers of the providers constructed meanwhile, and the factories of
the providers allocated before are kept. -/
theorem grows_Use (fuel a : Nat) (w : World T E) (r : Except String T) (w1 : World T E)
    (h : Use fuel a w = some (r, w1)) : w.grows w1 := by
  induction fuel generalizing a w r w1 with
  | zero =>
    rcases Use_cases 0 a w r w1 h with rfl | ⟨n, p, hn, _⟩
    · exact grows_refl _
    · cases hn
  | succ n ih =>
    rcases Use_cases (n + 1) a w r w1 h with rfl | ⟨m, p, hn, hp, _, _, _, hcase⟩
    · exact grows_refl _
    · cases hn
      have hent := grows_of_sameShape (sameShape_enter w a p hp)
      have hex := fun r2 w2 (he : exec (Use n) p.createDependency (w.enter a p)
          = some (r2, w2)) =>
        grows_trans hent (grows_exec (Use n) (fun a w r w1 => ih a w r w1)
          p.createDependency _ r2 w2 he)
      rcases hcase with ⟨msg, he, _⟩ | ⟨u, w2, q, he, hq, _, hw1⟩ | ⟨u, he, _⟩
      · exact hex _ _ he
      · rw [hw1]
        exact grows_trans (hex _ _ he) (grows_of_sameShape (sameShape_store w2 a q _ hq rfl))
      · exact hex _ _ he

/-- The log of factory invocations only grows along a `Use` that returns a
value. -/
theorem count_le_Use (a k : Nat) (fuel b : Nat) (w : World T E) (v : T) (w1 : World T E)
    (h : Use fuel b w = some (.ok v, w1)) (hI : k ≤ w.calls.count a) :
    k ≤ w1.calls.count a := by
  induction fuel generalizing b w v w1 with
  | zero =>
    rcases Use_cases 0 b w _ w1 h with rfl | ⟨n, p, hn, _⟩
    · exact hI
    · cases hn
  | succ n ih =>
    rcases Use_cases (n + 1) b w _ w1 h with rfl | ⟨m, p, hn, hp, hm, hpend, hi, hcase⟩
    · exact hI
    · cases hn
      have hent : k ≤ (w.enter b p).calls.count a := by
        show k ≤ (w.calls ++ [b]).count a
        rw [List.count_append]; omega
      have hex := fun u w2 (he : exec (Use n) p.createDependency (w.enter b p)
          = some (.ok u, w2)) =>
        exec_preserves (fun w0 => k ≤ w0.calls.count a) (Use n) (fun w0 e h0 => h0)
          (fun b1 v0 w0 h0 _ => by simp only [calls_Mock]; exact h0)
          (fun b1 w0 h0 => by simp only [calls_reset]; exact h0)
          (fun f w0 h0 => h0)
          (fun b1 w0 v0 w3 hu h0 => ih b1 w0 v0 w3 hu h0)
          p.createDependency _ u w2 he hent
      rcases hcase with ⟨msg, _, hr⟩ | ⟨u, w2, q, he, _, _, hw1⟩ | ⟨u, he, _⟩
      · cases hr
      · rw [hw1]; exact hex u w2 he
      · exact hex u w1 he

/-- The `Use` of an empty provider whose factory returns `v`: it returns `v`,
the log holds at least one more invocation of that factory, and the provider
holds `v` as its instance. -/
theorem Use_of_factory_returns (fuel a : Nat) (w w2 : World T E) (p : provider T E) (v : T)
    (hp : w.heap[a]? = some p) (hm : p.hasMock = false) (hpend : p.isPending = false)
    (hi : p.hasInstance = false)
    (hrun : exec (Use fuel) p.createDependency (w.enter a p) = some (.ok v, w2)) :
    ∃ w3 q, Use (fuel + 1) a w = some (.ok v, w3) ∧ w.calls.count a + 1 ≤ w3.calls.count a ∧
      w.grows w3 ∧ w3.heap[a]? = some q ∧ q.isPending = false ∧ q.hasInstance = true ∧
      q.instance_ = v := by
  have hshape : w.grows w2 :=
    grows_trans (grows_of_sameShape (sameShape_enter w a p hp)) (grows_exec (Use fuel)
      (fun a w r w1 => grows_Use fuel a w r w1) p.createDependency _ _ _ hrun)
  obtain ⟨q, hq, _⟩ := grows_getElem? hshape a p hp
  have hcount : w.calls.count a + 1 ≤ w2.calls.count a :=
    exec_preserves (fun w0 => w.calls.count a + 1 ≤ w0.calls.count a) (Use fuel)
      (fun w0 e h0 => h0)
      (fun b1 v0 w0 h0 _ => by simp only [calls_Mock]; exact h0)
      (fun b1 w0 h0 => by simp only [calls_reset]; exact h0)
      (fun f w0 h0 => h0)
      (fun b1 w0 v0 w3 hu h0 => count_le_Use a _ fuel b1 w0 v0 w3 hu h0)
      p.createDependency _ v w2 hrun (by
        show w.calls.count a + 1 ≤ (w.calls ++ [a]).count a
        simp [List.count_append])
  exact ⟨_, _, Use_of_factory_ok fuel a w w2 p q v hp hm hpend hi hrun hq, hcount,
    grows_trans hshape (grows_of_sameShape (sameShape_store w2 a q _ hq rfl)),
    heap_store_self w2 a q _ hq, rfl, rfl, rfl⟩

theorem run_append (fuel : Nat) (l1 l2 : List (Call T)) (w wA wB : World T E)
    (rsA rsB : List (Except String (Option T)))
    (h1 : run fuel l1 w = some (rsA, wA)) (h2 : run fuel l2 wA = some (rsB, wB)) :
    run fuel (l1 ++ l2) w = some (rsA ++ rsB, wB) := by
  induction l1 generalizing w rsA with
  | nil =>
    simp only [run, Option.some.injEq, Prod.mk.injEq] at h1
    obtain ⟨hr, hw⟩ := h1
    subst hr; subst hw
    simpa using h2
  | cons c l1 ih =>
    simp only [run] at h1
    split at h1
    · cases h1
    · rename_i r w2 hc
      split at h1
      · cases h1
      · rename_i rs2 w3 hr
        cases h1
        have hih := ih w2 rs2 hr
        show run fuel (c :: (l1 ++ l2)) w = _
        simp only [run, hc, hih, List.cons_append]

theorem UseUnmocked_of_empty (a n b : Nat) (w : World T E) (p : provider T E)
    (hp : w.heap[b]? = some p) (hm : p.hasMock = false) (hpend : p.isPending = false)
    (hi : p.hasInstance = false) :
    UseUnmocked a (n + 1) b w =
      (execUnmocked (Use n) (UseUnmocked a n) p.createDependency (w.enter b p) &&
        match exec (Use n) p.createDependency (w.enter b p) with
        | some (.ok _, w2) =>
          if b = a then
            match w2.heap[a]? with
            | some q => !q.hasMock
            | none => true
          else true
        | _ => true) := by
  rw [UseUnmocked]
  simp [hp, hm, hpend, hi]

theorem exclusive_reset (a b : Nat) (w : World T E) (h : w.exclusive a) :
    (reset b w).2.exclusive a := by
  intro q hq
  rw [heap_reset] at hq
  by_cases hab : a = b
  · rw [if_pos hab] at hq
    cases hp : w.heap[a]? with
    | none => rw [hp] at hq; cases hq
    | some p =>
      rw [hp] at hq
      cases hq
      simp [provider.reset]
  · rw [if_neg hab] at hq
    exact h q hq

theorem exclusive_foldl_reset (a : Nat) (l : List Nat) (w : World T E) (h : w.exclusive a) :
    (l.foldl (fun acc c => (reset c acc).2) w).exclusive a := by
  induction l generalizing w with
  | nil => exact h
  | cons c l ih => exact ih _ (exclusive_reset a c w h)

theorem exclusive_Provider (a : Nat) (f : Prog T E) (w : World T E) (h : w.exclusive a) :
    (Provider f w).2.exclusive a := by
  intro q hq
  by_cases hlt : a < w.heap.length
  · have hsame : (Provider f w).2.heap[a]? = w.heap[a]? := List.getElem?_append_left hlt
    rw [hsame] at hq
    exact h q hq
  · simp only [Provider, List.getElem?_append_right (Nat.le_of_not_lt hlt)] at hq
    cases hidx : a - w.heap.length with
    | zero =>
      rw [hidx] at hq
      simp only [List.getElem?_cons_zero, Option.some.injEq] at hq
      rw [← hq]
      simp
    | succ m =>
      rw [hidx] at hq
      simp at hq

/-- A factory body keeps `hasMock` and `hasInstance` of the provider at `a`
apart, however it finishes, when the `Use` calls it makes do. -/
theorem exclusive_exec (a : Nat)
    (useF : Nat → World T E → Option (Except String T × World T E))
    (quietF : Nat → World T E → Bool)
    (huse : ∀ b w r w1, useF b w = some (r, w1) → quietF b w = true →
      w.exclusive a → w1.exclusive a)
    (prog : Prog T E) (w : World T E) (r : Except String T) (w1 : World T E)
    (h : exec useF prog w = some (r, w1))
    (hquiet : execUnmocked useF quietF prog w = true) (hI : w.exclusive a) :
    w1.exclusive a := by
  induction prog generalizing w with
  | ret u =>
    simp only [exec, Option.some.injEq, Prod.mk.injEq] at h
    rw [← h.2]; exact hI
  | panic msg =>
    simp only [exec, Option.some.injEq, Prod.mk.injEq] at h
    rw [← h.2]; exact hI
  | read k ih =>
    simp only [exec] at h
    simp only [execUnmocked] at hquiet
    exact ih _ w h hquiet hI
  | modify f k ih =>
    simp only [exec] at h
    simp only [execUnmocked] at hquiet
    exact ih _ h hquiet hI
  | use b k ih =>
    simp only [exec] at h
    rw [execUnmocked, Bool.and_eq_true] at hquiet
    split at h
    · cases h
    · rename_i msg w2 hu
      cases h
      exact huse b w _ _ hu hquiet.1 hI
    · rename_i u w2 hu
      have hq2 := hquiet.2
      rw [hu] at hq2
      exact ih u w2 h hq2 (huse b w _ w2 hu hquiet.1 hI)
  | mock b u k ih =>
    simp only [exec] at h
    simp only [execUnmocked] at hquiet
    have hM := exclusive_Mock a b u w hI
    split at h
    · rename_i msg w2 hm
      cases h
      rw [hm] at hM; exact hM
    · rename_i x w2 hm
      rw [hm] at hM hquiet
      exact ih w2 h hquiet hM
  | reset b k ih =>
    simp only [exec] at h
    simp only [execUnmocked] at hquiet
    have hR := exclusive_reset a b w hI
    split at h
    · rename_i msg w2 hm
      cases h
      rw [hm] at hR; exact hR
    · rename_i x w2 hm
      rw [hm] at hR hquiet
      exact ih w2 h hquiet hR
  | resetAll k ih =>
    simp only [exec] at h
    simp only [execUnmocked] at hquiet
    exact ih _ h hquiet (exclusive_foldl_reset a w.providers w hI)
  | construct f k _ ih =>
    simp only [exec] at h
    simp only [execUnmocked] at hquiet
    exact ih _ _ h hquiet (exclusive_Provider a f w hI)

/-- A `Use`, however it finishes, keeps `hasMock` and `hasInstance` of the
provider at `a` apart when no run of the factory of `a` made during it returns
a value with `a` mocked. -/
theorem exclusive_Use (a : Nat) (fuel b : Nat) (w : World T E) (r : Except String T)
    (w1 : World T E) (h : Use fuel b w = some (r, w1))
    (hquiet : UseUnmocked a fuel b w = true) (hI : w.exclusive a) : w1.exclusive a := by
  induction fuel generalizing b w r w1 with
  | zero =>
    rcases Use_cases 0 b w r w1 h with rfl | ⟨n, p, hn, _⟩
    · exact hI
    · cases hn
  | succ n ih =>
    rcases Use_cases (n + 1) b w r w1 h with rfl | ⟨m, p, hn, hp, hm, hpend, hi, hcase⟩
    · exact hI
    · cases hn
      rw [UseUnmocked_of_empty a n b w p hp hm hpend hi, Bool.and_eq_true] at hquiet
      have hent : (w.enter b p).exclusive a := by
        intro q hq hboth
        by_cases hab : b = a
        · subst hab
          have : (w.enter b p).heap[b]? = some { p with isPending := true } :=
            heap_store_self w b p _ hp
          rw [this] at hq
          cases hq
          simp [hm] at hboth
        · have : (w.enter b p).heap[a]? = w.heap[a]? := heap_store_other w b a _ hab
          rw [this] at hq
          exact hI q hq hboth
      have hex := fun r2 w2 (he : exec (Use n) p.createDependency (w.enter b p)
          = some (r2, w2)) =>
        exclusive_exec a (Use n) (UseUnmocked a n)
          (fun b1 w0 r0 w3 hu hq0 h0 => ih b1 w0 r0 w3 hu hq0 h0)
          p.createDependency _ r2 w2 he hquiet.1 hent
      rcases hcase with ⟨msg, he, _⟩ | ⟨u, w2, q, he, hq, _, hw1⟩ | ⟨u, he, _⟩
      · exact hex _ _ he
      · have h2 := hex _ _ he
        rw [hw1]
        by_cases hab : b = a
        · subst hab
          have hq2 := hquiet.2
          rw [he] at hq2
          simp only [if_true, hq, Bool.not_eq_true'] at hq2
          intro q1 hq1 hboth
          rw [heap_store_self w2 b q _ hq] at hq1
          cases hq1
          simp [hq2] at hboth
        · exact exclusive_store_other a b w2 _ hab h2
      · exact hex _ _ he

theorem exclusive_run (a : Nat) (fuel : Nat) (cs : List (Call T)) (w : World T E)
    (rs : List (Except String (Option T))) (w1 : World T E)
    (h : run fuel cs w = some (rs, w1)) (hquiet : runUnmocked a fuel cs w = true)
    (hI : w.exclusive a) : w1.exclusive a := by
  induction cs generalizing w rs with
  | nil =>
    simp only [run, Option.some.injEq, Prod.mk.injEq] at h
    rw [← h.2]; exact hI
  | cons c cs ih =>
    simp only [run] at h
    simp only [runUnmocked, Bool.and_eq_true] at hquiet
    split at h
    · cases h
    · rename_i r w2 hc
      have hq2 := hquiet.2
      rw [hc] at hq2
      split at h
      · cases h
      · rename_i rs2 w3 hr
        cases h
        refine ih w2 rs2 hr hq2 ?_
        cases c with
        | use b =>
          simp only [call] at hc
          split at hc
          · cases hc
          · rename_i msg w4 hu
            cases hc
            exact exclusive_Use a fuel b w _ _ hu hquiet.1 hI
          · rename_i v w4 hu
            cases hc
            exact exclusive_Use a fuel b w _ _ hu hquiet.1 hI
        | mock b v =>
          have hM := exclusive_Mock a b v w hI
          simp only [call] at hc
          split at hc
          · rename_i msg w4 hm
            cases hc
            rw [hm] at hM; exact hM
          · rename_i x w4 hm
            cases hc
            rw [hm] at hM; exact hM
        | reset b =>
          have hR := exclusive_reset a b w hI
          simp only [call] at hc
          split at hc
          · rename_i msg w4 hm
            cases hc
            rw [hm] at hR; exact hR
          · rename_i x w4 hm
            cases hc
            rw [hm] at hR; exact hR
        | resetAll =>
          simp only [call, Option.some.injEq, Prod.mk.injEq] at hc
          rw [← hc.2]
          exact exclusive_foldl_reset a w.providers w hI

theorem factoryBehaves_of_empty (fuel a : Nat) (w : World T E) (p : provider T E)
    (hp : w.heap[a]? = some p) (hm : p.hasMock = false) (hpend : p.isPending = false)
    (hi : p.hasInstance = false) (h : factoryBehaves fuel a w = true) :
    ∃ v w2, exec (Use fuel) p.createDependency (w.enter a p) = some (.ok v, w2) ∧
      w2.calls.count a = w.calls.count a + 1 := by
  unfold factoryBehaves at h
  simp only [hp, hm, hpend, hi, Bool.or_self, Bool.false_eq_true, if_false] at h
  split at h
  · rename_i v w2 he
    refine ⟨v, w2, he, ?_⟩
    have h2 : w2.calls.count a = (w.calls ++ [a]).count a := by simpa [World.enter] using h
    rw [h2]
    simp [List.count_append]
  · cases h

/-- One client call on a provider that is not pending and whose factory, if
the call invokes it, returns a value without the provider being re-entered:
the call finishes, the provider is not pending afterwards, and the budget
grows only by a reset. -/
theorem call_budget (fuel a : Nat) (c : OwnCall T) (w0 : World T E) (q : provider T E)
    (hq : w0.heap[a]? = some q) (hpend : q.isPending = false)
    (hb : callBehaves fuel a c w0 = true) :
    ∃ r w1 q1, call (fuel + 1) (c.toCall a) w0 = some (r, w1) ∧
      w1.heap[a]? = some q1 ∧ q1.isPending = false ∧
      w1.budget a ≤ w0.budget a + (if c.isReset then 1 else 0) := by
  cases c with
  | use =>
    cases hm : q.hasMock with
    | true =>
      refine ⟨.ok (some q.mock), w0, q, ?_, hq, hpend, by simp [OwnCall.isReset]⟩
      simp only [OwnCall.toCall, call, Use_of_hasMock _ a w0 q hq hm]
    | false =>
      cases hi : q.hasInstance with
      | true =>
        refine ⟨.ok (some q.instance_), w0, q, ?_, hq, hpend, by simp [OwnCall.isReset]⟩
        simp only [OwnCall.toCall, call, Use_of_hasInstance _ a w0 q hq hm hpend hi]
      | false =>
        obtain ⟨v, w2, hrun, hcount⟩ :=
          factoryBehaves_of_empty fuel a w0 q hq hm hpend hi (by simpa [callBehaves] using hb)
        have hshape : w0.grows w2 :=
          grows_trans (grows_of_sameShape (sameShape_enter w0 a q hq)) (grows_exec (Use fuel)
            (fun a w r w1 => grows_Use fuel a w r w1) q.createDependency _ _ _ hrun)
        obtain ⟨q2, hq2, _⟩ := grows_getElem? hshape a q hq
        have hU := Use_of_factory_ok fuel a w0 w2 q q2 v hq hm hpend hi hrun hq2
        refine ⟨.ok (some v),
          w2.store a { q2 with instance_ := v, isPending := false, hasInstance := true },
          { q2 with instance_ := v, isPending := false, hasInstance := true }, ?_,
          heap_store_self w2 a _ _ hq2, rfl, ?_⟩
        · simp only [OwnCall.toCall, call, hU]
        · rw [budget_eq a _ _ (heap_store_self w2 a _ _ hq2), budget_eq a w0 q hq]
          simp only [World.store, hi, OwnCall.isReset]
          simp [hcount]
  | mock v =>
    cases hi : q.hasInstance with
    | true =>
      have hM : Mock a v w0 = (.error alreadyInitialized, w0) := by simp [Mock, hq, hi]
      refine ⟨.error alreadyInitialized, w0, q, ?_, hq, hpend, by simp [OwnCall.isReset]⟩
      simp only [OwnCall.toCall, call, hM]
    | false =>
      have hM : Mock a v w0 = (.ok (), w0.store a { q with mock := v, hasMock := true }) := by
        simp [Mock, hq, hi]
      refine ⟨.ok none, w0.store a { q with mock := v, hasMock := true },
        { q with mock := v, hasMock := true }, ?_, heap_store_self w0 a q _ hq, hpend, ?_⟩
      · simp only [OwnCall.toCall, call, hM]
      · rw [budget_eq a _ _ (heap_store_self w0 a q _ hq), budget_eq a w0 q hq]
        simp [World.store, hi, OwnCall.isReset]
  | reset =>
    have hR : reset a w0 = (.ok (), w0.store a q.reset) := by simp [reset, hq]
    refine ⟨.ok none, w0.store a q.reset, q.reset, ?_, heap_store_self w0 a q _ hq,
      rfl, ?_⟩
    · simp only [OwnCall.toCall, call, hR]
    · rw [budget_eq a _ _ (heap_store_self w0 a q _ hq), budget_eq a w0 q hq]
      cases q.hasInstance <;> simp [World.store, provider.reset, OwnCall.isReset]
  | resetAll =>
    have hheap := heap_Reset w0 a
    rw [hq] at hheap
    by_cases hmem : a ∈ w0.providers
    · rw [if_pos hmem] at hheap
      refine ⟨.ok none, Reset w0, q.reset, rfl, hheap, rfl, ?_⟩
      rw [budget_eq a _ _ hheap, budget_eq a w0 q hq, calls_Reset]
      cases q.hasInstance <;> simp [provider.reset, OwnCall.isReset]
    · rw [if_neg hmem] at hheap
      refine ⟨.ok none, Reset w0, q, rfl, hheap, hpend, ?_⟩
      rw [budget_eq a _ _ hheap, budget_eq a w0 q hq, calls_Reset]
      simp [OwnCall.isReset]

theorem run_budget (fuel a : Nat) (cs : List (OwnCall T)) (w0 : World T E)
    (q : provider T E) (hq : w0.heap[a]? = some q) (hpend : q.isPending = false)
    (hb : scriptBehaves fuel a cs w0 = true) :
    ∃ rs w1 q1, run (fuel + 1) (cs.map (OwnCall.toCall a)) w0 = some (rs, w1) ∧
      w1.heap[a]? = some q1 ∧ q1.isPending = false ∧
      w1.budget a ≤ w0.budget a + resets cs := by
  induction cs generalizing w0 q with
  | nil => exact ⟨[], w0, q, rfl, hq, hpend, by simp [resets]⟩
  | cons c cs ih =>
    rw [scriptBehaves, Bool.and_eq_true] at hb
    obtain ⟨r, w1, q1, hc, hq1, hp1, hb1⟩ := call_budget fuel a c w0 q hq hpend hb.1
    have hb2 := hb.2
    rw [hc] at hb2
    obtain ⟨rs, w2, q2, hr, hq2, hp2, hb3⟩ := ih w1 q1 hq1 hp1 hb2
    refine ⟨r :: rs, w2, q2, ?_, hq2, hp2, ?_⟩
    · simp only [List.map_cons, run, hc, hr]
    · have : resets (c :: cs) = (if c.isReset then 1 else 0) + resets cs := by
        unfold resets
        cases hcr : c.isReset <;> simp [List.filter_cons, hcr]
        omega
      omega

theorem scriptBehaves_prefix (fuel a : Nat) (l1 l2 : List (OwnCall T)) (w : World T E)
    (h : scriptBehaves fuel a (l1 ++ l2) w = true) : scriptBehaves fuel a l1 w = true := by
  induction l1 generalizing w with
  | nil => rfl
  | cons c l1 ih =>
    rw [List.cons_append, scriptBehaves, Bool.and_eq_true] at h
    rw [scriptBehaves, Bool.and_eq_true]
    refine ⟨h.1, ?_⟩
    have h2 := h.2
    cases hc : call (fuel + 1) (c.toCall a) w with
    | none => rfl
    | some x =>
      rw [hc] at h2
      exact ih x.2 h2

theorem scriptBehaves_append (fuel a : Nat) (l1 l2 : List (OwnCall T)) (w wA : World T E)
    (rs : List (Except String (Option T)))
    (h : scriptBehaves fuel a (l1 ++ l2) w = true)
    (hrun : run (fuel + 1) (l1.map (OwnCall.toCall a)) w = some (rs, wA)) :
    scriptBehaves fuel a l1 w = true ∧ scriptBehaves fuel a l2 wA = true := by
  induction l1 generalizing w rs with
  | nil =>
    simp only [List.map_nil, run, Option.some.injEq, Prod.mk.injEq] at hrun
    rw [← hrun.2]
    exact ⟨rfl, by simpa using h⟩
  | cons c l1 ih =>
    rw [List.cons_append, scriptBehaves, Bool.and_eq_true] at h
    simp only [List.map_cons, run] at hrun
    split at hrun
    · cases hrun
    · rename_i r w2 hc
      split at hrun
      · cases hrun
      · rename_i rs2 w3 hr
        cases hrun
        have h2 := h.2
        rw [hc] at h2
        obtain ⟨ha, hb⟩ := ih w2 rs2 h2 hr
        refine ⟨?_, hb⟩
        rw [scriptBehaves, Bool.and_eq_true]
        exact ⟨h.1, by rw [hc]; exact ha⟩

end basics

/-! ## The claims -/

section claims

variable {T E : Type} [Inhabited T]

/-- C1 (memoization).  Take a provider at pointer `a` that is un-mocked, not
pending and without instance (as after construction or a reset), whose factory,
invoked by `Use`, returns the value `v` normally (`hrun`) without operating on
the provider, so that at its return the provider's record is as `Use` set it
on entry (`hframe`).  Then for every `N ≥ 1`, `N` consecutive `Use()` calls
all return `v`, and the factory of `a` has been invoked exactly once more than
before. -/
theorem use_memoizes (fuel a N : Nat) (w w2 : World T E) (p : provider T E) (v : T)
    (hN : 1 ≤ N)
    (hp : w.heap[a]? = some p) (hm : p.hasMock = false) (hpend : p.isPending = false)
    (hi : p.hasInstance = false)
    (hrun : exec (Use fuel) p.createDependency (w.enter a p) = some (.ok v, w2))
    (hframe : w2.heap[a]? = some { p with isPending := true }) :
    ∃ wN, run (fuel + 1) (List.replicate N (Call.use a)) w
        = some (List.replicate N (.ok (some v)), wN)
      ∧ wN.calls.count a = w.calls.count a + 1 := by
  obtain ⟨n, rfl⟩ : ∃ n, N = n + 1 := ⟨N - 1, by omega⟩
  have h1 := Use_of_factory_ok fuel a w w2 p _ v hp hm hpend hi hrun hframe
  refine ⟨w2.store a { p with instance_ := v, isPending := false, hasInstance := true },
    ?_, ?_⟩
  · have hrest := run_use_of_hasInstance (fuel + 1) a n
      (w2.store a { p with instance_ := v, isPending := false, hasInstance := true }) _
      (heap_store_self w2 a _ _ hframe) hm rfl rfl
    simp only [List.replicate_succ, run, call, h1, hrest]
  · exact calls_of_frame fuel a w w2 p v hp hm hrun hframe

/-- C2 (mock priority).  On a provider without instance, `Mock(v)` succeeds,
and afterwards any number `n` of `Use()` calls all return `v`, with any fuel,
leaving the world as `Mock` left it: in particular the log of factory
invocations is the one from before the `Mock`, so no factory is invoked. -/
theorem mock_priority (fuel a n : Nat) (w : World T E) (p : provider T E) (v : T)
    (hp : w.heap[a]? = some p) (hi : p.hasInstance = false) :
    (Mock a v w).1 = .ok () ∧
    run fuel (List.replicate n (Call.use a)) (Mock a v w).2
      = some (List.replicate n (.ok (some v)), (Mock a v w).2) ∧
    (Mock a v w).2.calls = w.calls := by
  have hM : Mock a v w = (.ok (), w.store a { p with mock := v, hasMock := true }) := by
    simp [Mock, hp, hi]
  rw [hM]
  refine ⟨rfl, ?_, rfl⟩
  exact run_use_of_hasMock fuel a n _ _ (heap_store_self w a _ _ hp) rfl

/-- C4 (pending flag release), evaluated where the code departs from it.  A
provider whose factory panics with "boom": `Use()` propagates the panic and
leaves `isPending` true, and the next `Use()` panics with the
CircularDependency message although no cycle exists.  The same happens when the
panic is the CircularDependency raised by a re-entrant `Use()` inside the
factory. -/
theorem isPending_stuck_after_factory_panic :
    (∃ w1 : World Nat Unit,
      Use 1 0 (Provider (.panic "boom") (World.init ())).2 = some (.error "boom", w1) ∧
      w1.heap.map (fun p => p.isPending) = [true] ∧
      Use 1 0 w1 = some (.error circularDependency, w1)) ∧
    (∃ w1 : World Nat Unit,
      Use 1 0 (Provider (.use 0 fun v => .ret v) (World.init ())).2
        = some (.error circularDependency, w1) ∧
      w1.heap.map (fun p => p.isPending) = [true] ∧
      Use 1 0 w1 = some (.error circularDependency, w1)) :=
  ⟨⟨_, rfl, rfl, rfl⟩, ⟨_, rfl, rfl, rfl⟩⟩

/-- C5 (mock after instantiation is rejected).  In every provider state,
`Mock(v)` panics with the AlreadyInitialized message exactly when `hasInstance`
is true and succeeds exactly when it is false.  When it panics the world is
unchanged (every field of every provider), so a following `Use()` behaves as
it did before, and where `Use()` is answered from the cache (provider neither
mocked nor pending) it still returns the cached instance. -/
theorem mock_rejected_iff_hasInstance (fuel a : Nat) (w : World T E) (p : provider T E)
    (v : T) (hp : w.heap[a]? = some p) :
    ((Mock a v w).1 = .error alreadyInitialized ↔ p.hasInstance = true) ∧
    ((Mock a v w).1 = .ok () ↔ p.hasInstance = false) ∧
    (p.hasInstance = true →
      (Mock a v w).2 = w ∧
      Use fuel a (Mock a v w).2 = Use fuel a w ∧
      (p.hasMock = false → p.isPending = false →
        Use fuel a (Mock a v w).2 = some (.ok p.instance_, w))) := by
  cases hi : p.hasInstance with
  | true =>
    have hM : Mock a v w = (.error alreadyInitialized, w) := by simp [Mock, hp, hi]
    rw [hM]
    refine ⟨by simp, by simp, fun _ => ⟨rfl, rfl, fun hm hpend => ?_⟩⟩
    exact Use_of_hasInstance fuel a w p hp hm hpend hi
  | false =>
    have hM : Mock a v w = (.ok (), w.store a { p with mock := v, hasMock := true }) := by
      simp [Mock, hp, hi]
    rw [hM]
    refine ⟨by simp, by simp, fun h => by cases h⟩

/-- C7 (global reset scope).  Whatever the registry holds (any number of
pointers, in any order) and whatever state the providers are in, after
`Reset()` every registered provider is its own `reset()` image: `hasMock`,
`hasInstance` and `isPending` are false and the factory is kept.  The outcome
does not depend on the order of the registry: any permutation of it gives
the same heap. -/
theorem Reset_empties_registered (w : World T E) (a : Nat) (p : provider T E)
    (ha : a ∈ w.providers) (hp : w.heap[a]? = some p) :
    (∃ q, (Reset w).heap[a]? = some q ∧
      q.hasMock = false ∧ q.hasInstance = false ∧ q.isPending = false ∧
      q.createDependency = p.createDependency) ∧
    (∀ l : List Nat, l.Perm w.providers →
      (Reset { w with providers := l }).heap = (Reset w).heap) := by
  constructor
  · refine ⟨p.reset, ?_, rfl, rfl, rfl, rfl⟩
    rw [heap_Reset, if_pos ha, hp]; rfl
  · intro l hl
    apply List.ext_getElem?
    intro b
    rw [heap_Reset, heap_Reset]
    by_cases hb : b ∈ w.providers
    · simp [hb, hl.mem_iff.2 hb]
    · have : b ∉ l := fun h => hb (hl.mem_iff.1 h)
      simp [hb, this]

/-- C8 (re-mocking before instantiation).  On a provider without instance,
every script of `Mock` and `Use` calls that opens with a `Mock` (so that each
`Use` has a most recent `Mock`) runs without failure, with any fuel: every
`Mock` succeeds and every `Use` returns the value of the most recent `Mock`.
No factory is invoked and the provider still has no instance afterwards. -/
theorem remock_before_instance (fuel a : Nat) (w : World T E) (p : provider T E) (v : T)
    (cs : List (MockOrUse T)) (hp : w.heap[a]? = some p) (hi : p.hasInstance = false) :
    ∃ w1 q, run fuel (Call.mock a v :: cs.map (MockOrUse.toCall a)) w
        = some (.ok none :: mostRecentMock v cs, w1) ∧
      w1.calls = w.calls ∧ w1.heap[a]? = some q ∧ q.hasInstance = false := by
  have hM : Mock a v w = (.ok (), w.store a { p with mock := v, hasMock := true }) := by
    simp [Mock, hp, hi]
  obtain ⟨w1, q, hrun, hcalls, hq, hqi⟩ :=
    run_mocked fuel a cs (w.store a { p with mock := v, hasMock := true })
      { p with mock := v, hasMock := true } (heap_store_self w a p _ hp) hi rfl
  exact ⟨w1, q, by simp only [run, call, hM, hrun], hcalls, hq, hqi⟩

/-- C10 (lazy construction).  For a factory `f` of any result type,
`Provider(f)` invokes no factory and leaves the captured variables alone; the
returned pointer holds `f` with `hasMock`, `hasInstance` and `isPending` all
false.  If `f`, invoked by the first `Use()`, returns `v`, then that `Use()`
returns exactly `v`. -/
theorem provider_is_lazy (f : Prog T E) (w w2 : World T E) (fuel : Nat) (v : T)
    (hrun : exec (Use fuel) f
      ((Provider f w).2.enter (Provider f w).1
        { createDependency := f, instance_ := default, mock := default,
          isPending := false, hasInstance := false, hasMock := false })
      = some (.ok v, w2)) :
    (Provider f w).2.calls = w.calls ∧
    (Provider f w).2.env = w.env ∧
    (Provider f w).2.heap[(Provider f w).1]? =
      some { createDependency := f, instance_ := default, mock := default,
             isPending := false, hasInstance := false, hasMock := false } ∧
    ∃ w3, Use (fuel + 1) (Provider f w).1 (Provider f w).2 = some (.ok v, w3) := by
  have hp : (Provider f w).2.heap[(Provider f w).1]? =
      some { createDependency := f, instance_ := default, mock := default,
             isPending := false, hasInstance := false, hasMock := false } := by
    simp [Provider]
  refine ⟨rfl, rfl, hp, ?_⟩
  obtain ⟨w3, _, hU, _⟩ :=
    Use_of_factory_returns fuel (Provider f w).1 (Provider f w).2 w2 _ v hp rfl rfl rfl hrun
  exact ⟨w3, hU⟩

/-- C11 (reset postcondition).  In every provider state, `reset()` gives the
record with `mock` and `instance` zero, the three flags false and the factory
kept, which is the record `Provider` allocates for that factory; so `reset()`
is idempotent, on the record and on the world.  After `Mock(v)` and then
`Reset()` on a registered provider, if the factory invoked by the next `Use()`
returns `u`, that `Use()` returns `u` (not `v`) and the factory has been
invoked. -/
theorem reset_postcondition (fuel a : Nat) (w w2 : World T E) (p : provider T E) (v u : T)
    (hp : w.heap[a]? = some p) (ha : a ∈ w.providers)
    (hrun : exec (Use fuel) p.createDependency ((Reset (Mock a v w).2).enter a p.reset)
      = some (.ok u, w2)) :
    p.reset = { createDependency := p.createDependency, instance_ := default, mock := default,
                isPending := false, hasInstance := false, hasMock := false } ∧
    (reset a w).2.heap[a]? = some p.reset ∧
    (∀ w0 : World T E,
      (Provider p.createDependency w0).2.heap[(Provider p.createDependency w0).1]?
        = some p.reset) ∧
    p.reset.reset = p.reset ∧
    (reset a (reset a w).2).2 = (reset a w).2 ∧
    ∃ w3, Use (fuel + 1) a (Reset (Mock a v w).2) = some (.ok u, w3) ∧
      w.calls.count a + 1 ≤ w3.calls.count a := by
  have hR1 : reset a w = (.ok (), w.store a p.reset) := by simp [reset, hp]
  have hR2 : reset a (w.store a p.reset) = (.ok (), (w.store a p.reset).store a p.reset) := by
    simp [reset, heap_store_self w a p _ hp]
    rfl
  refine ⟨rfl, ?_, ?_, rfl, ?_, ?_⟩
  · rw [hR1]; exact heap_store_self w a p _ hp
  · intro w0
    simp [Provider, provider.reset]
  · rw [hR1, hR2]
    simp [World.store]
  · obtain ⟨q, hq, hqc⟩ := sameShape_getElem? (sameShape_Mock a v w) a p hp
    have hmem : a ∈ (Mock a v w).2.providers := by
      rw [(sameShape_Mock a v w).1]; exact ha
    have hR : (Reset (Mock a v w).2).heap[a]? = some p.reset := by
      rw [heap_Reset, if_pos hmem, hq]
      simp [reset_eq_of_createDependency p q hqc]
    obtain ⟨w3, _, hU, hc, _⟩ :=
      Use_of_factory_returns fuel a _ w2 p.reset u hR rfl rfl rfl hrun
    refine ⟨w3, hU, ?_⟩
    rw [calls_Reset, calls_Mock] at hc
    exact hc

/-- C12 (recovery after a cycle).  Take a registered provider whose `Use()`
panicked with the CircularDependency message (however the cycle arose).  After
`Reset()` the provider is empty again, and if its factory, invoked by the next
`Use()`, this time returns `v`, that `Use()` returns `v`. -/
theorem recovery_after_cycle (fuel fuel2 a : Nat) (w w1 w2 : World T E) (p : provider T E)
    (v : T) (hp : w.heap[a]? = some p) (ha : a ∈ w.providers)
    (hfail : Use fuel a w = some (.error circularDependency, w1))
    (hrun : exec (Use fuel2) p.createDependency ((Reset w1).enter a p.reset)
      = some (.ok v, w2)) :
    (Reset w1).heap[a]? = some p.reset ∧
    ∃ w3, Use (fuel2 + 1) a (Reset w1) = some (.ok v, w3) := by
  have hshape := grows_Use fuel a w _ w1 hfail
  obtain ⟨q, hq, hqc⟩ := grows_getElem? hshape a p hp
  have hmem : a ∈ w1.providers := grows_mem hshape a ha
  have hR : (Reset w1).heap[a]? = some p.reset := by
    rw [heap_Reset, if_pos hmem, hq]
    simp [reset_eq_of_createDependency p q hqc]
  obtain ⟨w3, _, hU, _⟩ := Use_of_factory_returns fuel2 a _ w2 p.reset v hR rfl rfl rfl hrun
  exact ⟨hR, w3, hU⟩

/-- C13 (order of the checks in `Use`).  In every provider state, with a
factory that returns a value when `Use` invokes it: `Use()` finishes, it
panics exactly when `hasMock` is false and `isPending` is true, and the panic
is then the CircularDependency one with the world unchanged; when `hasMock` is
true, `Use()` returns `mock` whatever `isPending` and `hasInstance` are, with
any fuel and with the world unchanged (so no factory is invoked). -/
theorem use_check_order (fuel a : Nat) (w : World T E) (p : provider T E)
    (hp : w.heap[a]? = some p)
    (hfac : p.hasMock = false → p.isPending = false → p.hasInstance = false →
      ∃ v w2, exec (Use fuel) p.createDependency (w.enter a p) = some (.ok v, w2)) :
    ((∃ msg w1, Use (fuel + 1) a w = some (.error msg, w1)) ↔
        (p.hasMock = false ∧ p.isPending = true)) ∧
    (p.hasMock = false → p.isPending = true →
        Use (fuel + 1) a w = some (.error circularDependency, w)) ∧
    (∃ r, Use (fuel + 1) a w = some r) ∧
    (p.hasMock = true → ∀ n, Use n a w = some (.ok p.mock, w)) := by
  refine ⟨?_, fun hm hpend => Use_of_isPending _ a w p hp hm hpend, ?_,
    fun hm n => Use_of_hasMock n a w p hp hm⟩
  · cases hm : p.hasMock with
    | true =>
      rw [Use_of_hasMock _ a w p hp hm]
      simp
    | false =>
      cases hpend : p.isPending with
      | true =>
        rw [Use_of_isPending _ a w p hp hm hpend]
        simp
      | false =>
        cases hi : p.hasInstance with
        | true =>
          rw [Use_of_hasInstance _ a w p hp hm hpend hi]
          simp
        | false =>
          obtain ⟨v, w2, hrun⟩ := hfac hm hpend hi
          obtain ⟨w3, _, hU, _⟩ := Use_of_factory_returns fuel a w w2 p v hp hm hpend hi hrun
          rw [hU]
          simp
  · cases hm : p.hasMock with
    | true => exact ⟨_, Use_of_hasMock _ a w p hp hm⟩
    | false =>
      cases hpend : p.isPending with
      | true => exact ⟨_, Use_of_isPending _ a w p hp hm hpend⟩
      | false =>
        cases hi : p.hasInstance with
        | true => exact ⟨_, Use_of_hasInstance _ a w p hp hm hpend hi⟩
        | false =>
          obtain ⟨v, w2, hrun⟩ := hfac hm hpend hi
          obtain ⟨w3, _, hU, _⟩ := Use_of_factory_returns fuel a w w2 p v hp hm hpend hi hrun
          exact ⟨_, hU⟩

/-- C14 as stated fails: a freshly constructed provider whose factory calls
`Mock(9)` on that provider while it is pending and then returns 3.  One
`Use()` returns 3 and leaves `hasMock` and `hasInstance` both true; the next
`Use()` returns the mock 9. -/
theorem mock_inside_factory_breaks_exclusivity :
    ∃ w1 : World Nat Unit,
      Use 1 0 (Provider (.mock 0 9 (.ret 3)) (World.init ())).2 = some (.ok 3, w1) ∧
      w1.heap.map (fun p => (p.hasMock, p.hasInstance)) = [(true, true)] ∧
      ¬ w1.exclusive 0 ∧
      Use 1 0 w1 = some (.ok 9, w1) :=
  ⟨_, rfl, rfl, fun h => h _ rfl ⟨rfl, rfl⟩, rfl⟩

/-- C14, amended (exclusivity of mock and instance).  Start where `hasMock`
and `hasInstance` of the provider at `a` are not both true (so from a freshly
constructed provider) and run any script of client calls `Use`, `Mock`,
`reset` and `Reset` on any providers, the factories being free to call `Use`,
`Mock`, `reset`, `Reset` and `Provider` on any provider, pending or not.  If
during the script no run of the factory of `a` returns a value while `a` is
mocked (`hquiet`), they are not both true afterwards.  That proviso is the
only way to make them both true: a `Use()` of the provider whose factory run
returns a value while the provider is mocked leaves both true. -/
theorem mock_instance_exclusive (fuel a : Nat) (cs : List (Call T)) (w w1 : World T E)
    (rs : List (Except String (Option T)))
    (hex : w.exclusive a) (hrun : run fuel cs w = some (rs, w1))
    (hquiet : runUnmocked a fuel cs w = true) :
    w1.exclusive a ∧
    ∀ (n : Nat) (p q : provider T E) (v : T) (w2 : World T E),
      w1.heap[a]? = some p → p.hasMock = false → p.isPending = false →
      p.hasInstance = false →
      exec (Use n) p.createDependency (w1.enter a p) = some (.ok v, w2) →
      w2.heap[a]? = some q → q.hasMock = true →
      ∃ w3, Use (n + 1) a w1 = some (.ok v, w3) ∧ ¬ w3.exclusive a := by
  refine ⟨exclusive_run a fuel cs w rs w1 hrun hquiet hex, ?_⟩
  intro n p q v w2 hp hm hpend hi he hq hqm
  refine ⟨_, Use_of_factory_ok n a w1 w2 p q v hp hm hpend hi he hq, fun h => ?_⟩
  exact h _ (heap_store_self w2 a q _ hq) ⟨hqm, rfl⟩

/-- C16 (at most one factory call per epoch).  Take a provider at pointer `a`
that is not pending (in particular a freshly constructed one) and a script of
`Use`, `Mock`, `reset` and `Reset` calls on it such that, each time a `Use()`
of the script invokes the factory, the factory returns a value without the
provider being re-entered, that is, without the factory of the provider being
invoked again meanwhile (`hfac`); the factory may use, mock, reset and
construct other providers.  The script runs to its end, a rejected `Mock`
changing nothing.  Split anywhere into `pre` and `seg`: if `seg` holds no
reset, the factory is invoked at most once during `seg`; and over the whole
script it is invoked at most one plus the number of resets times. -/
theorem one_factory_call_per_epoch (fuel a : Nat) (w : World T E) (p : provider T E)
    (pre seg : List (OwnCall T))
    (hp : w.heap[a]? = some p) (hpend : p.isPending = false)
    (hfac : scriptBehaves fuel a (pre ++ seg) w = true) :
    ∃ rsA wA rsB wB,
      run (fuel + 1) (pre.map (OwnCall.toCall a)) w = some (rsA, wA) ∧
      run (fuel + 1) (seg.map (OwnCall.toCall a)) wA = some (rsB, wB) ∧
      run (fuel + 1) ((pre ++ seg).map (OwnCall.toCall a)) w = some (rsA ++ rsB, wB) ∧
      (resets seg = 0 → wB.calls.count a ≤ wA.calls.count a + 1) ∧
      wB.calls.count a ≤ w.calls.count a + 1 + resets (pre ++ seg) := by
  have hbA := scriptBehaves_prefix fuel a pre seg w hfac
  obtain ⟨rsA, wA, qA, hrA, hqA, hpA, hbudA⟩ := run_budget fuel a pre w p hp hpend hbA
  have hbB := (scriptBehaves_append fuel a pre seg w wA rsA hfac hrA).2
  obtain ⟨rsB, wB2, _, hrB, _, _, hbudB⟩ := run_budget fuel a seg wA qA hqA hpA hbB
  have happ := run_append (fuel + 1) _ _ w wA wB2 rsA rsB hrA hrB
  rw [← List.map_append] at happ
  refine ⟨rsA, wA, rsB, wB2, hrA, hrB, happ, ?_, ?_⟩
  · intro h0
    have h1 := count_le_budget a wB2
    have h2 := budget_le_count a wA
    omega
  · have h1 := count_le_budget a wB2
    have h2 := budget_le_count a w
    rw [resets_append]
    omega

end claims

section mockFrame

variable {T E : Type}

/-- C17 (frame of `Mock`).  In every provider state with `hasInstance` false,
`Mock(v)` succeeds and the provider's record afterwards has `mock = v` and
`hasMock = true` with `isPending`, `instance`, `hasInstance` and the factory as
before; every other provider, the registry, the captured variables and the
log of factory invocations are unchanged, so no factory is invoked. -/
theorem mock_frame (a : Nat) (w : World T E) (p : provider T E) (v : T)
    (hp : w.heap[a]? = some p) (hi : p.hasInstance = false) :
    (Mock a v w).1 = .ok () ∧
    (∃ q, (Mock a v w).2.heap[a]? = some q ∧ q.mock = v ∧ q.hasMock = true ∧
      q.isPending = p.isPending ∧ q.instance_ = p.instance_ ∧
      q.hasInstance = p.hasInstance ∧ q.createDependency = p.createDependency) ∧
    (∀ b, b ≠ a → (Mock a v w).2.heap[b]? = w.heap[b]?) ∧
    (Mock a v w).2.providers = w.providers ∧
    (Mock a v w).2.env = w.env ∧
    (Mock a v w).2.calls = w.calls := by
  have hM : Mock a v w = (.ok (), w.store a { p with mock := v, hasMock := true }) := by
    simp [Mock, hp, hi]
  rw [hM]
  refine ⟨rfl, ⟨_, heap_store_self w a p _ hp, rfl, rfl, rfl, rfl, rfl, rfl⟩, ?_, rfl, rfl, rfl⟩
  intro b hb
  exact heap_store_other w a b _ (Ne.symm hb)

end mockFrame

/-! ## The theorems at concrete inputs -/

section witnesses

/-- Three `Use()` calls on the counting provider: each returns 1, and the
factory has run once. -/
theorem use_memoizes_witness :
    ∃ wN, run 1 (List.replicate 3 (Call.use 0)) counterWorld
        = some (List.replicate 3 (.ok (some 1)), wN)
      ∧ wN.calls.count 0 = counterWorld.calls.count 0 + 1 :=
  use_memoizes 0 0 3 counterWorld
    { heap := [{ createDependency := counterFactory, instance_ := 0, mock := 0,
                 isPending := true, hasInstance := false, hasMock := false }]
      providers := [0], env := 1, calls := [0] }
    { createDependency := counterFactory, instance_ := 0, mock := 0,
      isPending := false, hasInstance := false, hasMock := false }
    1 (by decide) rfl rfl rfl rfl rfl rfl

/-- After `Mock(7)` on the fresh counting provider, two `Use()` calls return
7 even with no fuel, and the invocation log stays empty. -/
theorem mock_priority_witness :
    (Mock 0 7 counterWorld).1 = .ok () ∧
    run 0 (List.replicate 2 (Call.use 0)) (Mock 0 7 counterWorld).2
      = some (List.replicate 2 (.ok (some 7)), (Mock 0 7 counterWorld).2) ∧
    (Mock 0 7 counterWorld).2.calls = counterWorld.calls :=
  mock_priority 0 0 2 counterWorld
    { createDependency := counterFactory, instance_ := 0, mock := 0,
      isPending := false, hasInstance := false, hasMock := false }
    7 rfl rfl

/-- On the used counting provider `Mock(9)` is rejected, nothing changes and
`Use()` still returns 1. -/
theorem mock_rejected_iff_hasInstance_witness :
    ((Mock 0 9 counterUsed).1 = .error alreadyInitialized ↔ true = true) ∧
    ((Mock 0 9 counterUsed).1 = .ok () ↔ true = false) ∧
    (true = true →
      (Mock 0 9 counterUsed).2 = counterUsed ∧
      Use 0 0 (Mock 0 9 counterUsed).2 = Use 0 0 counterUsed ∧
      (false = false → false = false →
        Use 0 0 (Mock 0 9 counterUsed).2 = some (.ok 1, counterUsed))) :=
  mock_rejected_iff_hasInstance 0 0 counterUsed
    { createDependency := counterFactory, instance_ := 1, mock := 0,
      isPending := false, hasInstance := true, hasMock := false }
    9 rfl

/-- A registry of three providers listed out of construction order, one
pending, one mocked, one instantiated: `Reset()` empties the mocked one. -/
theorem Reset_empties_registered_witness :
    (∃ q, (Reset (mixedWorld)).heap[1]? = some q ∧
      q.hasMock = false ∧ q.hasInstance = false ∧ q.isPending = false ∧
      q.createDependency = Prog.ret 2) ∧
    (∀ l : List Nat, l.Perm mixedWorld.providers →
      (Reset { mixedWorld with providers := l }).heap = (Reset mixedWorld).heap) :=
  Reset_empties_registered mixedWorld 1
    { createDependency := .ret 2, instance_ := 0, mock := 8,
      isPending := false, hasInstance := false, hasMock := true }
    (by decide) rfl

/-- The scenario of the specification: Mock("x"), Use, Mock("y"), Use. -/
theorem remock_before_instance_witness :
    ∃ w1 q, run 0 [Call.mock 0 "x", Call.use 0, Call.mock 0 "y", Call.use 0]
        (Provider (.ret "real") (World.init ()) : Nat × World String Unit).2
        = some ([.ok none, .ok (some "x"), .ok none, .ok (some "y")], w1) ∧
      w1.calls = [] ∧ w1.heap[0]? = some q ∧ q.hasInstance = false :=
  remock_before_instance 0 0 (Provider (.ret "real") (World.init ())).2
    { createDependency := .ret "real", instance_ := "", mock := "",
      isPending := false, hasInstance := false, hasMock := false }
    "x" [.use, .mock "y", .use] rfl rfl

/-- A factory of function type, as in the test: the first `Use()` returns the
function the factory returns. -/
theorem provider_is_lazy_witness :
    (Provider (.ret fun s => s ++ "!") (World.init ()) : Nat × World (String → String) Unit).2.calls
      = [] ∧
    (Provider (.ret fun s => s ++ "!") (World.init ()) : Nat × World (String → String) Unit).2.env
      = () ∧
    (Provider (.ret fun s => s ++ "!") (World.init ()) : Nat × World (String → String) Unit).2.heap[0]?
      = some { createDependency := .ret fun s => s ++ "!", instance_ := default, mock := default,
               isPending := false, hasInstance := false, hasMock := false } ∧
    ∃ w3, Use (0 + 1) 0
        (Provider (.ret fun s => s ++ "!") (World.init ()) : Nat × World (String → String) Unit).2
      = some (.ok (fun s => s ++ "!"), w3) :=
  provider_is_lazy (.ret fun s => s ++ "!") (World.init ())
    { heap := [{ createDependency := .ret fun s => s ++ "!", instance_ := default,
                 mock := default, isPending := true, hasInstance := false, hasMock := false }]
      providers := [0], env := (), calls := [0] }
    0 (fun s => s ++ "!") rfl

/-- The counting provider, mocked with 7 and then reset: `Use()` runs the
factory and returns 1. -/
theorem reset_postcondition_witness :
    ∃ w3, Use (0 + 1) 0 (Reset (Mock 0 7 counterWorld).2) = some (.ok 1, w3) ∧
      counterWorld.calls.count 0 + 1 ≤ w3.calls.count 0 :=
  (reset_postcondition 0 0 counterWorld
    { heap := [{ createDependency := counterFactory, instance_ := 0, mock := 0,
                 isPending := true, hasInstance := false, hasMock := false }]
      providers := [0], env := 1, calls := [0] }
    { createDependency := counterFactory, instance_ := 0, mock := 0,
      isPending := false, hasInstance := false, hasMock := false }
    7 1 rfl (by decide) rfl).2.2.2.2.2

/-- The provider whose factory re-enters it on its first run only: the first
`Use()` panics, and after `Reset()` the next `Use()` returns 7. -/
theorem recovery_after_cycle_witness :
    (Reset retryFailed).heap[0]? =
      some { createDependency := retryFactory, instance_ := 0, mock := 0,
             isPending := false, hasInstance := false, hasMock := false } ∧
    ∃ w3, Use (0 + 1) 0 (Reset retryFailed) = some (.ok 7, w3) :=
  recovery_after_cycle 1 0 0 retryWorld retryFailed
    { heap := [{ createDependency := retryFactory, instance_ := 0, mock := 0,
                 isPending := true, hasInstance := false, hasMock := false }]
      providers := [0], env := 1, calls := [0, 0] }
    { createDependency := retryFactory, instance_ := 0, mock := 0,
      isPending := false, hasInstance := false, hasMock := false }
    7 rfl (by decide) rfl rfl

/-- The fresh counting provider: `Use()` finishes and does not panic. -/
theorem use_check_order_witness :
    ((∃ msg w1, Use (0 + 1) 0 counterWorld = some (.error msg, w1)) ↔
        (false = false ∧ false = true)) ∧
    (false = false → false = true →
        Use (0 + 1) 0 counterWorld = some (.error circularDependency, counterWorld)) ∧
    (∃ r, Use (0 + 1) 0 counterWorld = some r) ∧
    (false = true → ∀ n, Use n 0 counterWorld = some (.ok 0, counterWorld)) :=
  use_check_order 0 0 counterWorld
    { createDependency := counterFactory, instance_ := 0, mock := 0,
      isPending := false, hasInstance := false, hasMock := false }
    rfl (fun _ _ _ => ⟨1, _, rfl⟩)

/-- A pending provider without instance: `Mock(4)` succeeds and the provider
stays pending. -/
theorem mock_frame_witness :
    (Mock 0 4 mixedWorld).1 = .ok () ∧
    (∃ q, (Mock 0 4 mixedWorld).2.heap[0]? = some q ∧ q.mock = 4 ∧ q.hasMock = true ∧
      q.isPending = true ∧ q.instance_ = 0 ∧
      q.hasInstance = false ∧ q.createDependency = Prog.ret 1) ∧
    (∀ b, b ≠ 0 → (Mock 0 4 mixedWorld).2.heap[b]? = mixedWorld.heap[b]?) ∧
    (Mock 0 4 mixedWorld).2.providers = mixedWorld.providers ∧
    (Mock 0 4 mixedWorld).2.env = mixedWorld.env ∧
    (Mock 0 4 mixedWorld).2.calls = mixedWorld.calls :=
  mock_frame 0 mixedWorld
    { createDependency := .ret 1, instance_ := 0, mock := 0,
      isPending := true, hasInstance := false, hasMock := false }
    4 rfl rfl

/-- The provider whose factory mocks its own provider and undoes it with
`reset()` before returning 3: through Use, a rejected Mock and Use it ends
instantiated and not mocked. -/
theorem mock_instance_exclusive_witness : mockResetUsed.exclusive 0 :=
  (mock_instance_exclusive 1 0 [.use 0, .mock 0 5, .use 0] mockResetWorld mockResetUsed
    [.ok (some 3), .error alreadyInitialized, .ok (some 3)]
    (by
      intro q hq hboth
      have hm : q.hasMock = false := by
        simp [mockResetWorld, Provider, World.init] at hq
        rw [← hq]
      rw [hm] at hboth
      cases hboth.1)
    rfl rfl).1

/-- The provider whose factory uses a plain dependency before counting: Use,
Use, reset, then Use, Mock, Use.  The last three calls, without reset, invoke
the factory once; the whole script, with one reset, at most twice. -/
theorem one_factory_call_per_epoch_witness :
    ∃ rsA wA rsB wB,
      run (1 + 1) ([OwnCall.use, .use, .reset].map (OwnCall.toCall 1)) dependentWorld
        = some (rsA, wA) ∧
      run (1 + 1) ([OwnCall.use, .mock 5, .use].map (OwnCall.toCall 1)) wA = some (rsB, wB) ∧
      run (1 + 1) (([OwnCall.use, .use, .reset] ++ [OwnCall.use, .mock 5, .use]).map
        (OwnCall.toCall 1)) dependentWorld = some (rsA ++ rsB, wB) ∧
      (resets [OwnCall.use, .mock 5, .use] = 0 → wB.calls.count 1 ≤ wA.calls.count 1 + 1) ∧
      wB.calls.count 1 ≤ dependentWorld.calls.count 1 + 1 +
        resets ([OwnCall.use, .use, .reset] ++ [OwnCall.use, .mock 5, .use]) :=
  one_factory_call_per_epoch 1 1 dependentWorld
    { createDependency := .use 0 fun v => .modify (fun n => n + 1) (.read fun n => .ret (n + v)),
      instance_ := 0, mock := 0, isPending := false, hasInstance := false, hasMock := false }
    [.use, .use, .reset] [.use, .mock 5, .use] rfl rfl
    (by
      simp [scriptBehaves, callBehaves, factoryBehaves, dependentWorld, Provider, World.init,
        call, Use, exec, World.enter, World.store, OwnCall.toCall, reset, provider.reset,
        Mock])

end witnesses

end dc
